import Mathlib

/-! T0RecoAnodeCathodePiercing: a shallow embedding.

Embedding of `src/uboone/T0Reco/T0RecoAnodeCathodePiercing_module.cc`.

Conventions of the embedding:

* a C++ `double` is a rational number (`ℚ`): comparisons and the division of
  the time formula are exact, and there is no NaN and no infinity; the rounding
  of the binary64 operations of the time formula is carried by
  `trackTimeDouble`;
* a `std::vector` is a `List`, `recob::Track` is the list of its trajectory
  points, `art::Ptr<recob::Track>` is the key (position) of the track in the
  input collection;
* an access that the C++ performs with `.at(i)` (or `LocationAtPoint(i)`) out
  of range is the fault `Fault.outOfRange`; a thrown exception is a value
  `Except.error`.
-/

namespace T0Reco

/-- The three coordinates of a `TVector3`. -/
structure TVector3 where
  X : ℚ
  Y : ℚ
  Z : ℚ
  deriving DecidableEq, Repr

/-- A `recob::Track`, seen through `NumberTrajectoryPoints` and
`LocationAtPoint`: the sequence of its trajectory points. -/
abbrev Track := List TVector3

/-- The constructor arguments of `anab::T0 t0(trkT, 0, 0)`. -/
structure T0 where
  fTime : ℚ
  fTriggerType : Nat
  fTriggerBits : Int
  deriving DecidableEq, Repr

/-- The ways in which the C++ leaves the normal control flow. -/
inductive Fault where
  | outOfRange
  | invalidHandle
  deriving DecidableEq, Repr

/-- The data members of the module. -/
structure T0RecoAnodeCathodePiercing where
  fTrackProducer : String
  fResolution : ℚ
  fDriftVelocity : ℚ
  _TOP : ℚ
  _BOTTOM : ℚ
  _FRONT : ℚ
  _BACK : ℚ
  _det_width : ℚ
  deriving DecidableEq, Repr

/-- Bounds-checked element access `v.at(i)`. -/
def at_ (v : List TVector3) (i : Nat) : Except Fault TVector3 :=
  match v[i]? with
  | some p => .ok p
  | none => .error Fault.outOfRange

/-- Point `i` of a track, `track.LocationAtPoint(i)`. The class `recob::Track`
is not part of this repository: an index past the last point is taken as the
out-of-range fault, as for `.at(i)`. -/
def LocationAtPoint (track : Track) (i : Nat) : Except Fault TVector3 :=
  at_ track i

/-- Number of points of a track, `track.NumberTrajectoryPoints()`. -/
def NumberTrajectoryPoints (track : Track) : Nat := track.length

/-- The loop `for (i ...) sorted_trk.push_back(track.LocationAtPoint(idx i))`,
over the successive values of the counter `i`. -/
def pushLoop (track : Track) (idx : Nat → Nat) :
    List Nat → List TVector3 → Except Fault (List TVector3)
  | [], sorted_trk => .ok sorted_trk
  | i :: rest, sorted_trk =>
    match LocationAtPoint track (idx i) with
    | .error e => .error e
    | .ok p => pushLoop track idx rest (sorted_trk ++ [p])

/-- Source `SortTrackPoints` (lines 227-254): the result is the value left in
`sorted_trk`. The first and last points are read before the comparison; with
at least one point `N - 1` does not wrap. -/
def SortTrackPoints (track : Track) : Except Fault (List TVector3) :=
  let N := NumberTrajectoryPoints track
  match LocationAtPoint track 0 with
  | .error e => .error e
  | .ok start =>
    match LocationAtPoint track (N - 1) with
    | .error e => .error e
    | .ok end_ =>
      if start.Y > end_.Y then
        pushLoop track (fun i => i) (List.range N) []
      else
        pushLoop track (fun i => N - i - 1) (List.range N) []

/-- Source `TrackExitsBottom` (lines 174-181). -/
def TrackExitsBottom (m : T0RecoAnodeCathodePiercing) (sorted_trk : List TVector3) :
    Except Fault Bool :=
  match at_ sorted_trk (sorted_trk.length - 1) with
  | .error e => .error e
  | .ok last => if last.Y < m._BOTTOM then .ok true else .ok false

/-- Source `TrackEntersSide` (lines 183-202). -/
def TrackEntersSide (m : T0RecoAnodeCathodePiercing) (sorted_trk : List TVector3) :
    Except Fault Bool :=
  match at_ sorted_trk 0 with
  | .error e => .error e
  | .ok top_pt =>
    if top_pt.Y > m._TOP then .ok false
    else if top_pt.Z < m._FRONT ∨ top_pt.Z > m._BACK then .ok false
    else .ok true

/-- Source `Anode` (lines 204-225). -/
def Anode (sorted_trk : List TVector3) : Except Fault Bool :=
  match at_ sorted_trk 0 with
  | .error e => .error e
  | .ok top =>
    match at_ sorted_trk (sorted_trk.length - 1) with
    | .error e => .error e
    | .ok bottom => if top.X < bottom.X then .ok true else .ok false

/-- Source `GetCrossingTimeCoord` (lines 256-262). -/
def GetCrossingTimeCoord (sorted_trk : List TVector3) : Except Fault ℚ :=
  match at_ sorted_trk 0 with
  | .error e => .error e
  | .ok p => .ok p.X

/-- The body of the loop of `produce` for one track (lines 135-161):
`none` is `continue`, `some t0` is the `anab::T0` that the body goes on to
store. -/
def trackT0 (m : T0RecoAnodeCathodePiercing) (track : Track) : Except Fault (Option T0) :=
  match SortTrackPoints track with
  | .error e => .error e
  | .ok sorted_trk =>
    match TrackExitsBottom m sorted_trk with
    | .error e => .error e
    | .ok false => .ok none
    | .ok true =>
      match TrackEntersSide m sorted_trk with
      | .error e => .error e
      | .ok false => .ok none
      | .ok true =>
        match Anode sorted_trk with
        | .error e => .error e
        | .ok anode =>
          match GetCrossingTimeCoord sorted_trk with
          | .error e => .error e
          | .ok trkX =>
            let trkT : ℚ :=
              if anode then trkX / m.fDriftVelocity
              else (trkX - m._det_width) / m.fDriftVelocity
            .ok (some ⟨trkT, 0, 0⟩)

/-- The two data products that `produce` puts into the event: the vector of
`anab::T0` and the associations, each a pair (key of the track in the input
collection, index of the `anab::T0` in `T0_v`). -/
structure Products where
  T0_v : List T0
  assn_v : List (Nat × Nat)
  deriving DecidableEq, Repr

/-- The loop of `produce` over `TrkVec` (lines 133-166); `key` is the key of
the `art::Ptr` of the current track. `util::CreateAssn` links the track to the
last element of `T0_v`. -/
def trackLoop (m : T0RecoAnodeCathodePiercing) :
    List Track → Nat → Products → Except Fault Products
  | [], _, out => .ok out
  | track :: rest, key, out =>
    match trackT0 m track with
    | .error e => .error e
    | .ok none => trackLoop m rest (key + 1) out
    | .ok (some t0) =>
      let T0_v := out.T0_v ++ [t0]
      trackLoop m rest (key + 1) ⟨T0_v, out.assn_v ++ [(key, T0_v.length - 1)]⟩

/-- Source `produce` (lines 105-171): `track_h` is `none` when the handle is
not valid; the result is what is put into the event. -/
def produce (m : T0RecoAnodeCathodePiercing) (track_h : Option (List Track)) :
    Except Fault Products :=
  match track_h with
  | none => .error Fault.invalidHandle
  | some TrkVec => trackLoop m TrkVec 0 ⟨[], []⟩

/-- The `anab::T0` that `produce` stores for a track: `none` when the loop body
does not reach the `emplace_back` for it. -/
def acceptedOffset (m : T0RecoAnodeCathodePiercing) (track : Track) : Option T0 :=
  match trackT0 m track with
  | .ok (some t0) => some t0
  | _ => none

/-- The keys of the tracks for which `produce` stores an `anab::T0`, in input
order, for a collection whose first key is `key`. -/
def acceptedKeys (m : T0RecoAnodeCathodePiercing) (tracks : List Track) (key : Nat) : List Nat :=
  ((tracks.enumFrom key).filter (fun p => (acceptedOffset m p.2).isSome)).map Prod.fst

/-! ## The constructor -/

/-- The keys of the `fhicl::ParameterSet` that the constructor reads; `none` is
a key that is absent from the configuration. -/
structure ParameterSet where
  TrackProducer : Option String
  Resolution : Option ℚ
  DriftVelocity : Option ℚ
  deriving DecidableEq, Repr

/-- What the constructor asks of the `geo::Geometry` provider. -/
structure Geometry where
  DetHalfHeight : ℚ
  DetHalfWidth : ℚ
  DetLength : ℚ
  deriving DecidableEq, Repr

/-- The exception of `fhicl::ParameterSet::get` for a key that is absent. -/
inductive ConfigError where
  | cantFind (key : String)
  deriving DecidableEq, Repr

/-- The call `p.get<T>(key)` without a default value: the value of the key, an
exception when the key is absent. -/
def getKey {α : Type} (key : String) (value : Option α) : Except ConfigError α :=
  match value with
  | some v => .ok v
  | none => .error (ConfigError.cantFind key)

/-- Source constructor (lines 82-103): the three keys are read in the order
`TrackProducer`, `Resolution`, `DriftVelocity`, then the bounds are computed
from the geometry. No value is checked. -/
def T0RecoAnodeCathodePiercing.construct (p : ParameterSet) (geom : Geometry) :
    Except ConfigError T0RecoAnodeCathodePiercing :=
  match getKey "TrackProducer" p.TrackProducer with
  | .error e => .error e
  | .ok fTrackProducer =>
    match getKey "Resolution" p.Resolution with
    | .error e => .error e
    | .ok fResolution =>
      match getKey "DriftVelocity" p.DriftVelocity with
      | .error e => .error e
      | .ok fDriftVelocity =>
        .ok { fTrackProducer := fTrackProducer
              fResolution := fResolution
              fDriftVelocity := fDriftVelocity
              _TOP := geom.DetHalfHeight - fResolution
              _BOTTOM := - geom.DetHalfHeight + fResolution
              _FRONT := fResolution
              _BACK := geom.DetLength - fResolution
              _det_width := geom.DetHalfWidth * 2 }

/-- The same module with another drift velocity. -/
def withDriftVelocity (m : T0RecoAnodeCathodePiercing) (v : ℚ) : T0RecoAnodeCathodePiercing :=
  { m with fDriftVelocity := v }

/-! ## The time formula in binary64 arithmetic

`trackT0` carries the exact quotient of lines 156 and 158. The definitions
below carry the rounding of the two `double` operations of those lines: a
finite `double` is the rational it denotes, `none` is a result that is not a
finite number. -/

/-- The integer nearest to `q`, the even one of the two when `q` lies half-way
between two integers. -/
def roundHalfEven (q : ℚ) : Int :=
  let f : Int := ⌊q⌋
  if q - f < 1 / 2 then f
  else if 1 / 2 < q - f then f + 1
  else if f % 2 = 0 then f else f + 1

/-- The binary64 value of a real result `q`, rounded to nearest, ties to even:
53 significant bits, least exponent -1074 (gradual underflow); `none` when the
rounded value is beyond the finite range (the result is an infinity). -/
def roundDouble (q : ℚ) : Option ℚ :=
  if q = 0 then some 0
  else
    let e : Int := max (Int.log 2 |q| - 52) (-1074)
    let r : ℚ := (roundHalfEven (q / (2 : ℚ) ^ e) : ℚ) * (2 : ℚ) ^ e
    if |r| < (2 : ℚ) ^ (1024 : Int) then some r else none

/-- The quotient `a / b` of two finite doubles; `none` when the result is not a
finite number (division by zero, overflow). -/
def fdiv (a b : ℚ) : Option ℚ :=
  if b = 0 then none else roundDouble (a / b)

/-- The difference `a - b` of two finite doubles. -/
def fsub (a b : ℚ) : Option ℚ :=
  roundDouble (a - b)

/-- Lines 153-158 in binary64 arithmetic: `trkX / fDriftVelocity` when `anode`,
`(trkX - _det_width) / fDriftVelocity` otherwise. -/
def trkT (m : T0RecoAnodeCathodePiercing) (anode : Bool) (trkX : ℚ) : Option ℚ :=
  if anode then fdiv trkX m.fDriftVelocity
  else
    match fsub trkX m._det_width with
    | none => none
    | some d => fdiv d m.fDriftVelocity

/-- The body of the loop of `produce` for one track (lines 135-158) with the
time in binary64 arithmetic: `none` is `continue`, `some t` is the value of
`trkT` that goes into the `anab::T0`. -/
def trackTimeDouble (m : T0RecoAnodeCathodePiercing) (track : Track) :
    Except Fault (Option (Option ℚ)) :=
  match SortTrackPoints track with
  | .error e => .error e
  | .ok sorted_trk =>
    match TrackExitsBottom m sorted_trk with
    | .error e => .error e
    | .ok false => .ok none
    | .ok true =>
      match TrackEntersSide m sorted_trk with
      | .error e => .error e
      | .ok false => .ok none
      | .ok true =>
        match Anode sorted_trk with
        | .error e => .error e
        | .ok anode =>
          match GetCrossingTimeCoord sorted_trk with
          | .error e => .error e
          | .ok trkX => .ok (some (trkT m anode trkX))

/-- Applying `SortTrackPoints` to its own output. -/
def SortTrackPointsTwice (track : Track) : Except Fault (List TVector3) :=
  match SortTrackPoints track with
  | .error e => .error e
  | .ok sorted_trk => SortTrackPoints sorted_trk

/-! ## Concrete scenarios -/

/-- A detector of half-height 105, half-width 125 and length 1000. -/
def scenarioGeometry : Geometry :=
  { DetHalfHeight := 105, DetHalfWidth := 125, DetLength := 1000 }

/-- A configuration with resolution 5 and velocity 1/10. -/
def scenarioParameters : ParameterSet :=
  { TrackProducer := some "pandoraCosmic", Resolution := some 5, DriftVelocity := some (1 / 10) }

/-- Bounds TOP = 100, BOTTOM = -100, FRONT = 5, BACK = 995, width 250,
velocity 1/10 (resolution 5). -/
def scenarioModule : T0RecoAnodeCathodePiercing :=
  { fTrackProducer := "pandoraCosmic", fResolution := 5, fDriftVelocity := 1 / 10,
    _TOP := 100, _BOTTOM := -100, _FRONT := 5, _BACK := 995, _det_width := 250 }

/-- Scenario 1: a track given top point first. -/
def scenario1 : Track := [⟨10, 90, 500⟩, ⟨-5, -105, 500⟩]

/-- Scenario 2: the points of scenario 1 in the opposite order. -/
def scenario2 : Track := [⟨-5, -105, 500⟩, ⟨10, 90, 500⟩]

/-- A track whose top point has Z equal to the front bound. -/
def frontEdgeTrack : Track := [⟨10, 90, 5⟩, ⟨-5, -105, 500⟩]

/-- A track whose top point has Z equal to the back bound. -/
def backEdgeTrack : Track := [⟨10, 90, 995⟩, ⟨-5, -105, 500⟩]

/-- Scenario 3: a track whose last point has Y equal to the bottom bound. -/
def bottomEdgeTrack : Track := [⟨10, 90, 500⟩, ⟨-5, -100, 500⟩]

/-- A track whose two end points have the same Y. -/
def levelTrack : Track := [⟨10, -105, 500⟩, ⟨-5, -105, 500⟩]

/-- Scenario 4: a track whose top and bottom points have the same X. -/
def verticalTrack : Track := [⟨10, 90, 500⟩, ⟨10, -105, 500⟩]

end T0Reco

/-! Angle3DFromVtxQweighted: the choice of the planes in `do_reconstruction`
(`Angle3DFromVtxQweighted_tool.cc`, lines 142-168), as a function of the
per-plane hit counts `planeHits`. An `int` is an integer, an iterator of
`planes` is a position, the end iterator is `none`. -/

namespace Angle3DFromVtxQweighted

/-- The ways in which the choice of the planes leaves the normal control flow:
the `ShowerRecoException` of line 161, `erase` applied to the end iterator,
`planes[0]` on an empty vector. -/
inductive Fault where
  | ShowerRecoException
  | eraseEnd
  | emptyPlanes
  deriving DecidableEq, Repr

/-- The local variables of the loop of lines 147-156. -/
structure Extremes where
  pl_max : Int
  n_max : Int
  pl_min : Int
  n_min : Int
  deriving DecidableEq, Repr

/-- The planes that `do_reconstruction` works with after line 168. -/
structure Planes where
  pl_max : Int
  pl_mid : Int
  pl_min : Int
  deriving DecidableEq, Repr

/-- The body of the loop (lines 148-155) for the plane `pl`; the loop keeps
`pl` below the size of `planeHits`. -/
def extremesStep (planeHits : List Int) (st : Extremes) (pl : Nat) : Extremes :=
  let hits := planeHits.getD pl 0
  let st1 : Extremes :=
    if hits > st.n_max then { st with pl_max := (pl : Int), n_max := hits } else st
  if hits < st1.n_min then { st1 with pl_min := (pl : Int), n_min := hits } else st1

/-- Lines 142-156: `pl_max = 0`, `n_max = 0`, `pl_min = 0`, `n_min = 1000`,
then the loop over the planes. -/
def extremes (planeHits : List Int) : Extremes :=
  (List.range planeHits.length).foldl (extremesStep planeHits) ⟨0, 0, 0, 1000⟩

/-- The element `planeHits[pl]` for an `int` index `pl`. -/
def planeHitsAt (planeHits : List Int) (pl : Int) : Int :=
  planeHits.getD pl.toNat 0

/-- The call `std::find(planes.begin(), planes.end(), value)`. -/
def find (planes : List Int) (value : Int) : Option Nat :=
  planes.indexOf? value

/-- The call `planes.erase(it)`; erasing the end iterator is a fault. -/
def erase (planes : List Int) (it : Option Nat) : Except Fault (List Int) :=
  match it with
  | none => .error Fault.eraseEnd
  | some i => .ok (planes.eraseIdx i)

/-- Lines 142-168 of `do_reconstruction`: the planes `pl_max`, `pl_mid` and
`pl_min` for the hit counts `planeHits`. -/
def do_reconstruction_planes (planeHits : List Int) : Except Fault Planes :=
  let st := extremes planeHits
  if st.pl_max = st.pl_min then .error Fault.ShowerRecoException
  else
    match erase [0, 1, 2] (find [0, 1, 2] st.pl_max) with
    | .error e => .error e
    | .ok planes1 =>
      match erase planes1 (find planes1 st.pl_min) with
      | .error e => .error e
      | .ok planes2 =>
        match planes2[0]? with
        | none => .error Fault.emptyPlanes
        | some pl_mid => .ok ⟨st.pl_max, pl_mid, st.pl_min⟩

end Angle3DFromVtxQweighted

namespace T0Reco

/-! ## Element access and the two loops of `SortTrackPoints` -/

theorem at_eq_ok {v : List TVector3} {i : Nat} (h : i < v.length) :
    at_ v i = .ok v[i] := by
  simp [at_, List.getElem?_eq_getElem h]

theorem at_zero_eq_head {v : List TVector3} (h : v ≠ []) : at_ v 0 = .ok (v.head h) := by
  cases v with
  | nil => exact absurd rfl h
  | cons p rest => simp [at_]

theorem at_last_eq_getLast {v : List TVector3} (h : v ≠ []) :
    at_ v (v.length - 1) = .ok (v.getLast h) := by
  have hlen : v.length - 1 < v.length := by
    have := List.length_pos.mpr h
    omega
  rw [at_eq_ok hlen, List.getLast_eq_getElem]

theorem pushLoop_eq (track : Track) (idx : Nat → Nat) (d : TVector3) :
    ∀ (is : List Nat) (acc : List TVector3), (∀ i ∈ is, idx i < track.length) →
      pushLoop track idx is acc = .ok (acc ++ is.map (fun i => track[idx i]?.getD d)) := by
  intro is
  induction is with
  | nil => intro acc _; simp [pushLoop]
  | cons i rest ih =>
    intro acc h
    have hi : idx i < track.length := h i (List.mem_cons_self _ _)
    have hrest : ∀ j ∈ rest, idx j < track.length := fun j hj => h j (List.mem_cons_of_mem _ hj)
    simp only [pushLoop, LocationAtPoint, at_eq_ok hi]
    rw [ih _ hrest]
    simp [List.getElem?_eq_getElem hi]

theorem map_range_getD (t : List TVector3) (d : TVector3) :
    (List.range t.length).map (fun i => t[i]?.getD d) = t := by
  apply List.ext_getElem
  · simp
  · intro n h1 h2
    simp [List.getElem?_eq_getElem h2]

theorem map_range_getD_rev (t : List TVector3) (d : TVector3) :
    (List.range t.length).map (fun i => t[t.length - i - 1]?.getD d) = t.reverse := by
  apply List.ext_getElem
  · simp
  · intro n h1 h2
    have hn : n < t.length := by simpa using h2
    have h3 : t.length - n - 1 < t.length := by omega
    simp [List.getElem?_eq_getElem h3, List.getElem_reverse]
    congr 1
    omega

/-- On a track with at least one point `SortTrackPoints` returns, and returns
the track or its reverse. -/
theorem SortTrackPoints_eq (track : Track) (h : track ≠ []) :
    SortTrackPoints track =
      .ok (if (track.head h).Y > (track.getLast h).Y then track else track.reverse) := by
  unfold SortTrackPoints
  simp only [LocationAtPoint, NumberTrajectoryPoints, at_zero_eq_head h, at_last_eq_getLast h]
  split
  · rw [pushLoop_eq track _ ⟨0, 0, 0⟩ _ _ (by intro i hi; simpa using hi)]
    simp [map_range_getD]
  · rw [pushLoop_eq track _ ⟨0, 0, 0⟩ _ _ (by
      intro i hi
      have : i < track.length := by simpa using hi
      omega)]
    simp [map_range_getD_rev]

theorem SortTrackPoints_nil : SortTrackPoints [] = .error Fault.outOfRange := by
  simp [SortTrackPoints, LocationAtPoint, at_]

/-- What `SortTrackPoints` returns is never empty. -/
theorem SortTrackPoints_ne_nil {track : Track} {s : List TVector3}
    (hs : SortTrackPoints track = .ok s) : s ≠ [] := by
  cases track with
  | nil => simp [SortTrackPoints_nil] at hs
  | cons p rest =>
    rw [SortTrackPoints_eq _ (List.cons_ne_nil p rest)] at hs
    injection hs with hs
    subst hs
    split <;> simp

/-! ## The four predicates on a non-empty sorted track -/

theorem TrackExitsBottom_eq (m : T0RecoAnodeCathodePiercing) (s : List TVector3) (h : s ≠ []) :
    TrackExitsBottom m s = .ok (decide ((s.getLast h).Y < m._BOTTOM)) := by
  unfold TrackExitsBottom
  rw [at_last_eq_getLast h]
  by_cases hlt : (s.getLast h).Y < m._BOTTOM <;> simp [hlt]

theorem TrackEntersSide_eq (m : T0RecoAnodeCathodePiercing) (s : List TVector3) (h : s ≠ []) :
    TrackEntersSide m s =
      .ok (decide ((s.head h).Y ≤ m._TOP ∧ m._FRONT ≤ (s.head h).Z ∧ (s.head h).Z ≤ m._BACK)) := by
  unfold TrackEntersSide
  rw [at_zero_eq_head h]
  by_cases hy : (s.head h).Y > m._TOP
  · simp [hy, not_le.mpr hy]
  · by_cases hz : (s.head h).Z < m._FRONT ∨ (s.head h).Z > m._BACK
    · have : ¬ (m._FRONT ≤ (s.head h).Z ∧ (s.head h).Z ≤ m._BACK) := by
        rintro ⟨h1, h2⟩
        rcases hz with hz | hz
        · exact absurd h1 (not_le.mpr hz)
        · exact absurd h2 (not_le.mpr hz)
      simp only [hy, hz, if_true, if_false]
      simp [this]
    · have h1 : m._FRONT ≤ (s.head h).Z := not_lt.mp (fun c => hz (Or.inl c))
      have h2 : (s.head h).Z ≤ m._BACK := not_lt.mp (fun c => hz (Or.inr c))
      simp only [hy, hz, if_false]
      simp [not_lt.mp hy, h1, h2]

theorem Anode_eq (s : List TVector3) (h : s ≠ []) :
    Anode s = .ok (decide ((s.head h).X < (s.getLast h).X)) := by
  unfold Anode
  rw [at_zero_eq_head h, at_last_eq_getLast h]
  by_cases hlt : (s.head h).X < (s.getLast h).X <;> simp [hlt]

theorem GetCrossingTimeCoord_eq (s : List TVector3) (h : s ≠ []) :
    GetCrossingTimeCoord s = .ok (s.head h).X := by
  unfold GetCrossingTimeCoord
  rw [at_zero_eq_head h]

/-- The loop body on a track whose sorted points are `s`. -/
theorem trackT0_eq (m : T0RecoAnodeCathodePiercing) (track : Track) (s : List TVector3)
    (hs : SortTrackPoints track = .ok s) (h : s ≠ []) :
    trackT0 m track =
      .ok (if (s.getLast h).Y < m._BOTTOM ∧
              ((s.head h).Y ≤ m._TOP ∧ m._FRONT ≤ (s.head h).Z ∧ (s.head h).Z ≤ m._BACK) then
            some ⟨if (s.head h).X < (s.getLast h).X then (s.head h).X / m.fDriftVelocity
                  else ((s.head h).X - m._det_width) / m.fDriftVelocity, 0, 0⟩
           else none) := by
  unfold trackT0
  simp only [hs, TrackExitsBottom_eq m s h, TrackEntersSide_eq m s h, Anode_eq s h,
    GetCrossingTimeCoord_eq s h]
  by_cases hb : (s.getLast h).Y < m._BOTTOM
  · by_cases he : (s.head h).Y ≤ m._TOP ∧ m._FRONT ≤ (s.head h).Z ∧ (s.head h).Z ≤ m._BACK
    · by_cases hx : (s.head h).X < (s.getLast h).X <;> simp [hb, he, hx]
    · simp [hb, he]
  · simp [hb]

/-! ## The time formula -/

/-- C1: for every track for which the loop body of `produce` reaches the
`anab::T0`, with `s` the output of `SortTrackPoints` and a drift velocity other
than zero, the crossing coordinate is the X of the first sorted point and the
stored time is `s[0].X / v` when `Anode s` is true and `(s[0].X - w) / v` when
`Anode s` is false; the trigger type and bits are 0. -/
theorem time_offset_formula (m : T0RecoAnodeCathodePiercing) (track : Track) (t0 : T0)
    (hv : m.fDriftVelocity ≠ 0) (hacc : trackT0 m track = .ok (some t0)) :
    ∃ s top, SortTrackPoints track = .ok s ∧ s.head? = some top ∧
      TrackExitsBottom m s = .ok true ∧ TrackEntersSide m s = .ok true ∧
      GetCrossingTimeCoord s = .ok top.X ∧
      ((Anode s = .ok true ∧ t0 = ⟨top.X / m.fDriftVelocity, 0, 0⟩) ∨
       (Anode s = .ok false ∧ t0 = ⟨(top.X - m._det_width) / m.fDriftVelocity, 0, 0⟩)) := by
  have _ := hv
  cases hsort : SortTrackPoints track with
  | error e => simp [trackT0, hsort] at hacc
  | ok s =>
    have hne : s ≠ [] := SortTrackPoints_ne_nil hsort
    refine ⟨s, s.head hne, rfl, List.head?_eq_head hne, ?_⟩
    rw [trackT0_eq m track s hsort hne] at hacc
    rw [TrackExitsBottom_eq m s hne, TrackEntersSide_eq m s hne, Anode_eq s hne,
      GetCrossingTimeCoord_eq s hne]
    split at hacc
    · rename_i hcond
      obtain ⟨hb, he⟩ := hcond
      injection hacc with hacc
      injection hacc with hacc
      refine ⟨by simp [hb], by simp [he], rfl, ?_⟩
      by_cases hx : (s.head hne).X < (s.getLast hne).X
      · left
        refine ⟨by simp [hx], ?_⟩
        rw [← hacc]
        simp [hx]
      · right
        refine ⟨by simp [hx], ?_⟩
        rw [← hacc]
        simp [hx]
    · simp at hacc

/-- Scenario 1 is accepted as Cathode with the time -2400. -/
theorem scenario1_eval : trackT0 scenarioModule scenario1 = .ok (some ⟨-2400, 0, 0⟩) := by
  simp [trackT0, SortTrackPoints, pushLoop, LocationAtPoint, at_, NumberTrajectoryPoints,
    TrackExitsBottom, TrackEntersSide, Anode, GetCrossingTimeCoord, scenarioModule, scenario1,
    List.range, List.range.loop]
  norm_num

theorem scenario1_sorted : SortTrackPoints scenario1 = .ok scenario1 := by
  rw [SortTrackPoints_eq scenario1 (by simp [scenario1])]
  norm_num [scenario1]

/-- Scenario 1 at the time formula: velocity 1/10 is not zero, the track is
accepted with the time -2400, its sorted points are the track itself and the
plane is Cathode. -/
theorem time_offset_formula_witness :
    scenarioModule.fDriftVelocity ≠ 0 ∧
    trackT0 scenarioModule scenario1 = .ok (some ⟨-2400, 0, 0⟩) ∧
    SortTrackPoints scenario1 = .ok scenario1 ∧ Anode scenario1 = .ok false ∧
    ∃ s top, SortTrackPoints scenario1 = .ok s ∧ s.head? = some top ∧
      TrackExitsBottom scenarioModule s = .ok true ∧
      TrackEntersSide scenarioModule s = .ok true ∧
      GetCrossingTimeCoord s = .ok top.X ∧
      ((Anode s = .ok true ∧
          (⟨-2400, 0, 0⟩ : T0) = ⟨top.X / scenarioModule.fDriftVelocity, 0, 0⟩) ∨
       (Anode s = .ok false ∧
          (⟨-2400, 0, 0⟩ : T0) =
            ⟨(top.X - scenarioModule._det_width) / scenarioModule.fDriftVelocity, 0, 0⟩)) :=
  ⟨by norm_num [scenarioModule], scenario1_eval, scenario1_sorted,
    by norm_num [Anode, at_, scenario1],
    time_offset_formula scenarioModule scenario1 ⟨-2400, 0, 0⟩
      (by norm_num [scenarioModule]) scenario1_eval⟩

/-! ## The plane discriminator -/

/-- C2: on a non-empty sorted track `Anode` returns true exactly when the X of
the first point is strictly less than the X of the last point and false
(Cathode) in every other case; two non-empty tracks with the same first X and
the same last X get the same answer. -/
theorem anode_iff_first_x_lt_last_x (s : List TVector3) (hne : s ≠ []) :
    (Anode s = .ok true ↔ (s.head hne).X < (s.getLast hne).X) ∧
    (Anode s = .ok false ↔ ¬ (s.head hne).X < (s.getLast hne).X) ∧
    (∀ (r : List TVector3) (hr : r ≠ []), (r.head hr).X = (s.head hne).X →
      (r.getLast hr).X = (s.getLast hne).X → Anode r = Anode s) := by
  refine ⟨?_, ?_, ?_⟩
  · rw [Anode_eq s hne]
    by_cases hx : (s.head hne).X < (s.getLast hne).X <;> simp [hx]
  · rw [Anode_eq s hne]
    by_cases hx : (s.head hne).X < (s.getLast hne).X <;> simp [hx]
  · intro r hr h1 h2
    rw [Anode_eq s hne, Anode_eq r hr, h1, h2]

/-- The discriminator on scenario 1 and on a three-point track with the
same end points. -/
theorem anode_iff_first_x_lt_last_x_witness :
    (Anode scenario1 = .ok true ↔ (10 : ℚ) < -5) ∧
    (Anode scenario1 = .ok false ↔ ¬ (10 : ℚ) < -5) ∧
    Anode [⟨10, 0, 0⟩, ⟨-70, 3, 4⟩, ⟨-5, 1, 2⟩] = Anode scenario1 := by
  have h := anode_iff_first_x_lt_last_x scenario1 (by simp [scenario1])
  refine ⟨?_, ?_, ?_⟩
  · simpa [scenario1] using h.1
  · simpa [scenario1] using h.2.1
  · exact h.2.2 [⟨10, 0, 0⟩, ⟨-70, 3, 4⟩, ⟨-5, 1, 2⟩] (by simp) (by simp [scenario1])
      (by simp [scenario1])

/-! ## The boundary classifier -/

/-- C3, as the code has it: on a non-empty sorted track `TrackEntersSide` is true
exactly when `s[0].Y <= _TOP` and `_FRONT <= s[0].Z <= _BACK`, both comparisons
on Z being non-strict, and false otherwise; a track whose first sorted point
has Z below `_FRONT` or above `_BACK` gets no `anab::T0`. -/
theorem track_enters_side_iff (m : T0RecoAnodeCathodePiercing) (s : List TVector3)
    (hne : s ≠ []) :
    (TrackEntersSide m s = .ok true ↔
      (s.head hne).Y ≤ m._TOP ∧ m._FRONT ≤ (s.head hne).Z ∧ (s.head hne).Z ≤ m._BACK) ∧
    (TrackEntersSide m s = .ok false ↔
      ¬ ((s.head hne).Y ≤ m._TOP ∧ m._FRONT ≤ (s.head hne).Z ∧ (s.head hne).Z ≤ m._BACK)) ∧
    (∀ track : Track, SortTrackPoints track = .ok s →
      ((s.head hne).Z < m._FRONT ∨ m._BACK < (s.head hne).Z) → trackT0 m track = .ok none) := by
  refine ⟨?_, ?_, ?_⟩
  · rw [TrackEntersSide_eq m s hne]
    by_cases h : (s.head hne).Y ≤ m._TOP ∧ m._FRONT ≤ (s.head hne).Z ∧ (s.head hne).Z ≤ m._BACK
    · simp [h]
    · simp only [h, iff_false]
      simp [h]
  · rw [TrackEntersSide_eq m s hne]
    by_cases h : (s.head hne).Y ≤ m._TOP ∧ m._FRONT ≤ (s.head hne).Z ∧ (s.head hne).Z ≤ m._BACK
    · simp only [h, not_true, iff_false]
      simp [h]
    · simp only [h, not_false_iff, iff_true]
      simp [h]
  · intro track hs hz
    rw [trackT0_eq m track s hs hne]
    have : ¬ (m._FRONT ≤ (s.head hne).Z ∧ (s.head hne).Z ≤ m._BACK) := by
      rintro ⟨h1, h2⟩
      rcases hz with hz | hz
      · exact absurd h1 (not_le.mpr hz)
      · exact absurd h2 (not_le.mpr hz)
    rw [if_neg]
    rintro ⟨_, _, h⟩
    exact this h

/-- The amended side test at the back edge (accepted) and beyond it
(no `anab::T0`). -/
theorem track_enters_side_iff_witness :
    TrackEntersSide scenarioModule backEdgeTrack = .ok true ∧
    trackT0 scenarioModule [⟨10, 90, 996⟩, ⟨-5, -105, 500⟩] = .ok none := by
  constructor
  · exact (track_enters_side_iff scenarioModule backEdgeTrack
      (by simp [backEdgeTrack])).1.mpr (by norm_num [backEdgeTrack, scenarioModule])
  · refine (track_enters_side_iff scenarioModule [⟨10, 90, 996⟩, ⟨-5, -105, 500⟩]
      (by simp)).2.2 [⟨10, 90, 996⟩, ⟨-5, -105, 500⟩] ?_ ?_
    · rw [SortTrackPoints_eq _ (by simp)]
      norm_num
    · norm_num [scenarioModule]

/-- C3 as stated fails: the first point of `frontEdgeTrack` has Z equal to
`_FRONT`, so the strict condition is false, yet `TrackEntersSide` is true and
the track gets an `anab::T0`; the same holds at `_BACK`. -/
theorem track_enters_side_strict_counterexample :
    scenarioModule._FRONT = 5 ∧ scenarioModule._BACK = 995 ∧
    SortTrackPoints frontEdgeTrack = .ok frontEdgeTrack ∧
    frontEdgeTrack.head? = some ⟨10, 90, 5⟩ ∧
    ¬ ((90 : ℚ) ≤ scenarioModule._TOP ∧ scenarioModule._FRONT < 5 ∧
        (5 : ℚ) < scenarioModule._BACK) ∧
    TrackEntersSide scenarioModule frontEdgeTrack = .ok true ∧
    trackT0 scenarioModule frontEdgeTrack = .ok (some ⟨-2400, 0, 0⟩) ∧
    SortTrackPoints backEdgeTrack = .ok backEdgeTrack ∧
    backEdgeTrack.head? = some ⟨10, 90, 995⟩ ∧
    ¬ ((90 : ℚ) ≤ scenarioModule._TOP ∧ scenarioModule._FRONT < 995 ∧
        (995 : ℚ) < scenarioModule._BACK) ∧
    TrackEntersSide scenarioModule backEdgeTrack = .ok true ∧
    trackT0 scenarioModule backEdgeTrack = .ok (some ⟨-2400, 0, 0⟩) := by
  refine ⟨rfl, rfl, ?_, rfl, ?_, ?_, ?_, ?_, rfl, ?_, ?_, ?_⟩
  · rw [SortTrackPoints_eq _ (by simp [frontEdgeTrack])]
    norm_num [frontEdgeTrack]
  · norm_num [scenarioModule]
  · norm_num [TrackEntersSide, at_, frontEdgeTrack, scenarioModule]
  · simp [trackT0, SortTrackPoints, pushLoop, LocationAtPoint, at_, NumberTrajectoryPoints,
      TrackExitsBottom, TrackEntersSide, Anode, GetCrossingTimeCoord, scenarioModule,
      frontEdgeTrack, List.range, List.range.loop]
    norm_num
  · rw [SortTrackPoints_eq _ (by simp [backEdgeTrack])]
    norm_num [backEdgeTrack]
  · norm_num [scenarioModule]
  · norm_num [TrackEntersSide, at_, backEdgeTrack, scenarioModule]
  · simp [trackT0, SortTrackPoints, pushLoop, LocationAtPoint, at_, NumberTrajectoryPoints,
      TrackExitsBottom, TrackEntersSide, Anode, GetCrossingTimeCoord, scenarioModule,
      backEdgeTrack, List.range, List.range.loop]
    norm_num

/-- On a batch of one track `produce` stores what the loop body computes. -/
theorem produce_singleton (m : T0RecoAnodeCathodePiercing) (track : Track) :
    produce m (some [track]) =
      match trackT0 m track with
      | .error e => .error e
      | .ok none => .ok ⟨[], []⟩
      | .ok (some t0) => .ok ⟨[t0], [(0, 0)]⟩ := by
  unfold produce
  simp only [trackLoop]
  cases trackT0 m track with
  | error e => rfl
  | ok r =>
    cases r with
    | none => rfl
    | some t0 => rfl

/-- C4: on a non-empty sorted track `TrackExitsBottom` is true exactly when the
Y of the last point is strictly less than `_BOTTOM`, and false otherwise; a
track whose last sorted point has Y equal to `_BOTTOM` gets no `anab::T0`, and
`produce` on that track alone puts empty products into the event. -/
theorem track_exits_bottom_iff (m : T0RecoAnodeCathodePiercing) (s : List TVector3)
    (hne : s ≠ []) :
    (TrackExitsBottom m s = .ok true ↔ (s.getLast hne).Y < m._BOTTOM) ∧
    (TrackExitsBottom m s = .ok false ↔ ¬ (s.getLast hne).Y < m._BOTTOM) ∧
    ((s.getLast hne).Y = m._BOTTOM →
      TrackExitsBottom m s = .ok false ∧
      ∀ track : Track, SortTrackPoints track = .ok s →
        trackT0 m track = .ok none ∧ produce m (some [track]) = .ok ⟨[], []⟩) := by
  have hb := TrackExitsBottom_eq m s hne
  refine ⟨?_, ?_, ?_⟩
  · rw [hb]
    by_cases h : (s.getLast hne).Y < m._BOTTOM <;> simp [h]
  · rw [hb]
    by_cases h : (s.getLast hne).Y < m._BOTTOM <;> simp [h]
  · intro heq
    have hnlt : ¬ (s.getLast hne).Y < m._BOTTOM := by rw [heq]; exact lt_irrefl _
    refine ⟨by rw [hb]; simp [hnlt], ?_⟩
    intro track hs
    have ht : trackT0 m track = .ok none := by
      rw [trackT0_eq m track s hs hne, if_neg]
      rintro ⟨h, _⟩
      exact hnlt h
    refine ⟨ht, ?_⟩
    rw [produce_singleton, ht]

theorem bottomEdgeTrack_sorted : SortTrackPoints bottomEdgeTrack = .ok bottomEdgeTrack := by
  rw [SortTrackPoints_eq _ (by simp [bottomEdgeTrack])]
  norm_num [bottomEdgeTrack]

/-- Scenario 3: the last point has Y = -100 = `_BOTTOM`; the track is rejected
and `produce` emits nothing for it. -/
theorem track_exits_bottom_iff_witness :
    TrackExitsBottom scenarioModule bottomEdgeTrack = .ok false ∧
    trackT0 scenarioModule bottomEdgeTrack = .ok none ∧
    produce scenarioModule (some [bottomEdgeTrack]) = .ok ⟨[], []⟩ := by
  have h := (track_exits_bottom_iff scenarioModule bottomEdgeTrack
    (by simp [bottomEdgeTrack])).2.2 (by norm_num [bottomEdgeTrack, scenarioModule])
  exact ⟨h.1, h.2 bottomEdgeTrack bottomEdgeTrack_sorted⟩

/-- C5: for a track with at least one point, with `s` its sorted points, the
loop body of `produce` yields an `anab::T0` if and only if `TrackExitsBottom s`
and `TrackEntersSide s` are both true; when `TrackExitsBottom s` is false
nothing is emitted whatever `TrackEntersSide s` is, and when
`TrackEntersSide s` is false nothing is emitted whatever `TrackExitsBottom s`
is. `produce` on the track alone emits one offset in the first case and none
in the others. -/
theorem emits_iff_both_predicates (m : T0RecoAnodeCathodePiercing) (track : Track)
    (hne : track ≠ []) :
    ∃ s, SortTrackPoints track = .ok s ∧
      ((∃ t0, trackT0 m track = .ok (some t0)) ↔
        (TrackExitsBottom m s = .ok true ∧ TrackEntersSide m s = .ok true)) ∧
      ((∃ t0, produce m (some [track]) = .ok ⟨[t0], [(0, 0)]⟩) ↔
        (TrackExitsBottom m s = .ok true ∧ TrackEntersSide m s = .ok true)) ∧
      (TrackExitsBottom m s = .ok false →
        trackT0 m track = .ok none ∧ produce m (some [track]) = .ok ⟨[], []⟩) ∧
      (TrackEntersSide m s = .ok false →
        trackT0 m track = .ok none ∧ produce m (some [track]) = .ok ⟨[], []⟩) := by
  cases hsort : SortTrackPoints track with
  | error e => rw [SortTrackPoints_eq track hne] at hsort; cases hsort
  | ok s =>
    have hs : s ≠ [] := SortTrackPoints_ne_nil hsort
    have ht := trackT0_eq m track s hsort hs
    have hb := TrackExitsBottom_eq m s hs
    have he := TrackEntersSide_eq m s hs
    refine ⟨s, rfl, ?_, ?_, ?_, ?_⟩
    · rw [ht, hb, he]
      by_cases h1 : (s.getLast hs).Y < m._BOTTOM
      · by_cases h2 : (s.head hs).Y ≤ m._TOP ∧ m._FRONT ≤ (s.head hs).Z ∧
            (s.head hs).Z ≤ m._BACK
        · simp [h1, h2]
        · simp [h1, h2]
      · simp [h1]
    · rw [produce_singleton, ht, hb, he]
      by_cases h1 : (s.getLast hs).Y < m._BOTTOM
      · by_cases h2 : (s.head hs).Y ≤ m._TOP ∧ m._FRONT ≤ (s.head hs).Z ∧
            (s.head hs).Z ≤ m._BACK
        · simp [h1, h2]
        · simp [h1, h2]
      · simp [h1]
    · intro hf
      rw [hb] at hf
      have h1 : ¬ (s.getLast hs).Y < m._BOTTOM := by
        intro c
        simp [c] at hf
      have hnone : trackT0 m track = .ok none := by
        rw [ht, if_neg]
        rintro ⟨c, _⟩
        exact h1 c
      refine ⟨hnone, ?_⟩
      rw [produce_singleton, hnone]
    · intro hf
      rw [he] at hf
      have h2 : ¬ ((s.head hs).Y ≤ m._TOP ∧ m._FRONT ≤ (s.head hs).Z ∧
          (s.head hs).Z ≤ m._BACK) := by
        intro c
        simp [c] at hf
      have hnone : trackT0 m track = .ok none := by
        rw [ht, if_neg]
        rintro ⟨_, c⟩
        exact h2 c
      refine ⟨hnone, ?_⟩
      rw [produce_singleton, hnone]

/-- Scenario 1 at the acceptance rule. -/
theorem emits_iff_both_predicates_witness :
    scenario1 ≠ [] ∧
    ∃ s, SortTrackPoints scenario1 = .ok s ∧
      ((∃ t0, trackT0 scenarioModule scenario1 = .ok (some t0)) ↔
        (TrackExitsBottom scenarioModule s = .ok true ∧
          TrackEntersSide scenarioModule s = .ok true)) ∧
      ((∃ t0, produce scenarioModule (some [scenario1]) = .ok ⟨[t0], [(0, 0)]⟩) ↔
        (TrackExitsBottom scenarioModule s = .ok true ∧
          TrackEntersSide scenarioModule s = .ok true)) ∧
      (TrackExitsBottom scenarioModule s = .ok false →
        trackT0 scenarioModule scenario1 = .ok none ∧
          produce scenarioModule (some [scenario1]) = .ok ⟨[], []⟩) ∧
      (TrackEntersSide scenarioModule s = .ok false →
        trackT0 scenarioModule scenario1 = .ok none ∧
          produce scenarioModule (some [scenario1]) = .ok ⟨[], []⟩) :=
  ⟨by simp [scenario1], emits_iff_both_predicates scenarioModule scenario1 (by simp [scenario1])⟩

/-! ## The point orderer -/

/-- C6: on a track with at least one point `SortTrackPoints` returns a
sequence whose first point has Y greater than or equal to the Y of its last
point. -/
theorem sorted_first_y_ge_last_y (track : Track) (hne : track ≠ []) :
    ∃ (s : List TVector3) (hs : s ≠ []), SortTrackPoints track = .ok s ∧
      (s.head hs).Y ≥ (s.getLast hs).Y := by
  by_cases h : (track.head hne).Y > (track.getLast hne).Y
  · refine ⟨track, hne, ?_, le_of_lt h⟩
    rw [SortTrackPoints_eq track hne, if_pos h]
  · have hr : track.reverse ≠ [] := by simpa using hne
    refine ⟨track.reverse, hr, ?_, ?_⟩
    · rw [SortTrackPoints_eq track hne, if_neg h]
    · rw [List.head_reverse, List.getLast_reverse]
      exact not_lt.mp h

/-- The ordering invariant on scenario 2, whose points come bottom first. -/
theorem sorted_first_y_ge_last_y_witness :
    scenario2 ≠ [] ∧
    ∃ (s : List TVector3) (hs : s ≠ []), SortTrackPoints scenario2 = .ok s ∧
      (s.head hs).Y ≥ (s.getLast hs).Y :=
  ⟨by simp [scenario2], sorted_first_y_ge_last_y scenario2 (by simp [scenario2])⟩

/-- C7: on a track `t` with at least one point `SortTrackPoints` returns
exactly `t` when the Y of the first point is strictly greater than the Y of the
last point and exactly the reverse of `t` otherwise, equal Y included; the
result has the length of `t` and is `t` or its reverse, the interior points
are never re-sorted. -/
theorem sort_is_identity_or_reverse (track : Track) (hne : track ≠ []) :
    ((track.head hne).Y > (track.getLast hne).Y → SortTrackPoints track = .ok track) ∧
    (¬ (track.head hne).Y > (track.getLast hne).Y →
      SortTrackPoints track = .ok track.reverse) ∧
    ((track.head hne).Y = (track.getLast hne).Y → SortTrackPoints track = .ok track.reverse) ∧
    (∃ s, SortTrackPoints track = .ok s ∧ s.length = track.length ∧
      (s = track ∨ s = track.reverse)) := by
  have h := SortTrackPoints_eq track hne
  refine ⟨?_, ?_, ?_, ?_⟩
  · intro hgt
    rw [h, if_pos hgt]
  · intro hngt
    rw [h, if_neg hngt]
  · intro heq
    rw [h, if_neg (by rw [heq]; exact lt_irrefl _)]
  · by_cases hgt : (track.head hne).Y > (track.getLast hne).Y
    · exact ⟨track, by rw [h, if_pos hgt], rfl, Or.inl rfl⟩
    · exact ⟨track.reverse, by rw [h, if_neg hgt], by simp, Or.inr rfl⟩

/-- A three-point track that is not monotonic in Y and starts at its lowest
end: the result is the reverse, the interior point stays in the middle. -/
theorem sort_is_identity_or_reverse_witness :
    SortTrackPoints [⟨1, -90, 3⟩, ⟨4, 200, 6⟩, ⟨7, 105, 9⟩] =
      .ok [⟨7, 105, 9⟩, ⟨4, 200, 6⟩, ⟨1, -90, 3⟩] ∧
    SortTrackPoints scenario1 = .ok scenario1 ∧
    SortTrackPoints levelTrack = .ok levelTrack.reverse := by
  refine ⟨?_, ?_, ?_⟩
  · exact (sort_is_identity_or_reverse [⟨1, -90, 3⟩, ⟨4, 200, 6⟩, ⟨7, 105, 9⟩]
      (by simp)).2.1 (by norm_num)
  · exact (sort_is_identity_or_reverse scenario1 (by simp [scenario1])).1
      (by norm_num [scenario1])
  · exact (sort_is_identity_or_reverse levelTrack (by simp [levelTrack])).2.2.1
      (by norm_num [levelTrack])

/-! ## The loop of `produce` -/

theorem acceptedOffset_eq_some_iff (m : T0RecoAnodeCathodePiercing) (t : Track) (t0 : T0) :
    acceptedOffset m t = some t0 ↔ trackT0 m t = .ok (some t0) := by
  unfold acceptedOffset
  cases trackT0 m t with
  | error e => simp
  | ok r =>
    cases r with
    | none => simp
    | some x => simp

theorem trackT0_ok_of_ne_nil (m : T0RecoAnodeCathodePiercing) (t : Track) (h : t ≠ []) :
    trackT0 m t = .ok (acceptedOffset m t) := by
  have hs := SortTrackPoints_eq t h
  have ht : ∃ r, trackT0 m t = .ok r := ⟨_, trackT0_eq m t _ hs (SortTrackPoints_ne_nil hs)⟩
  obtain ⟨r, hr⟩ := ht
  unfold acceptedOffset
  rw [hr]
  cases r <;> rfl

theorem acceptedKeys_nil (m : T0RecoAnodeCathodePiercing) (key : Nat) :
    acceptedKeys m [] key = [] := rfl

theorem acceptedKeys_cons (m : T0RecoAnodeCathodePiercing) (t : Track) (rest : List Track)
    (key : Nat) :
    acceptedKeys m (t :: rest) key =
      if (acceptedOffset m t).isSome then key :: acceptedKeys m rest (key + 1)
      else acceptedKeys m rest (key + 1) := by
  unfold acceptedKeys
  rw [List.enumFrom_cons, List.filter_cons]
  split <;> simp

theorem acceptedKeys_length (m : T0RecoAnodeCathodePiercing) (tracks : List Track) :
    ∀ key, (acceptedKeys m tracks key).length = (tracks.filterMap (acceptedOffset m)).length := by
  induction tracks with
  | nil => intro key; rfl
  | cons t rest ih =>
    intro key
    rw [acceptedKeys_cons]
    cases h : acceptedOffset m t with
    | none => simp [List.filterMap_cons, h, ih]
    | some t0 => simp [List.filterMap_cons, h, ih]

/-- The loop of `produce` in closed form, when the body fails on no track. -/
theorem trackLoop_eq (m : T0RecoAnodeCathodePiercing) (tracks : List Track) :
    ∀ (key : Nat) (out : Products), (∀ t ∈ tracks, trackT0 m t = .ok (acceptedOffset m t)) →
      trackLoop m tracks key out =
        .ok ⟨out.T0_v ++ tracks.filterMap (acceptedOffset m),
             out.assn_v ++ (acceptedKeys m tracks key).zip
               (List.range' out.T0_v.length (acceptedKeys m tracks key).length)⟩ := by
  induction tracks with
  | nil => intro key out _; simp [trackLoop, acceptedKeys_nil]
  | cons t rest ih =>
    intro key out h
    have ht := h t (List.mem_cons_self _ _)
    have hrest : ∀ u ∈ rest, trackT0 m u = .ok (acceptedOffset m u) :=
      fun u hu => h u (List.mem_cons_of_mem _ hu)
    rw [acceptedKeys_cons]
    cases hacc : acceptedOffset m t with
    | none =>
      rw [hacc] at ht
      simp only [trackLoop, ht]
      rw [ih _ _ hrest]
      simp [List.filterMap_cons, hacc]
    | some t0 =>
      rw [hacc] at ht
      simp only [trackLoop, ht]
      rw [ih _ _ hrest]
      simp [List.filterMap_cons, hacc, List.range'_succ]

theorem acceptedKeys_shift (m : T0RecoAnodeCathodePiercing) (tracks : List Track) (d : Nat) :
    ∀ key, acceptedKeys m tracks (key + d) = (acceptedKeys m tracks key).map (fun k => k + d) := by
  induction tracks with
  | nil => intro key; rfl
  | cons t rest ih =>
    intro key
    rw [acceptedKeys_cons, acceptedKeys_cons, Nat.add_right_comm key d 1, ih (key + 1)]
    split <;> simp

theorem acceptedKeys_append (m : T0RecoAnodeCathodePiercing) (a b : List Track) (key : Nat) :
    acceptedKeys m (a ++ b) key = acceptedKeys m a key ++ acceptedKeys m b (key + a.length) := by
  unfold acceptedKeys
  rw [List.enumFrom_append, List.filter_append, List.map_append]

/-- Each pair of accepted key and offset index refers to a track of the
collection and to the offset computed from that track. -/
theorem zip_acceptedKeys_sound (m : T0RecoAnodeCathodePiercing) (tracks : List Track) :
    ∀ (key n : Nat) (p : Nat × Nat),
      p ∈ (acceptedKeys m tracks key).zip (List.range' n (acceptedKeys m tracks key).length) →
      key ≤ p.1 ∧ n ≤ p.2 ∧ ∃ t t0, tracks[p.1 - key]? = some t ∧
        (tracks.filterMap (acceptedOffset m))[p.2 - n]? = some t0 ∧
        acceptedOffset m t = some t0 := by
  induction tracks with
  | nil => intro key n p hp; simp [acceptedKeys_nil] at hp
  | cons t rest ih =>
    intro key n p hp
    rw [acceptedKeys_cons] at hp
    cases hacc : acceptedOffset m t with
    | none =>
      simp only [hacc, Option.isSome_none, Bool.false_eq_true, if_false] at hp
      obtain ⟨h1, h2, u, u0, hu, hu0, hacc0⟩ := ih (key + 1) n p hp
      refine ⟨by omega, h2, u, u0, ?_, ?_, hacc0⟩
      · have : p.1 - key = (p.1 - (key + 1)) + 1 := by omega
        rw [this, List.getElem?_cons_succ]
        exact hu
      · rw [List.filterMap_cons, hacc]
        exact hu0
    | some t0 =>
      simp only [hacc, Option.isSome_some, if_true, List.length_cons, List.range'_succ,
        List.zip_cons_cons, List.mem_cons] at hp
      rcases hp with hp | hp
      · subst hp
        refine ⟨le_refl _, le_refl _, t, t0, ?_, ?_, hacc⟩
        · simp
        · simp [List.filterMap_cons, hacc]
      · obtain ⟨h1, h2, u, u0, hu, hu0, hacc0⟩ := ih (key + 1) (n + 1) p hp
        refine ⟨by omega, by omega, u, u0, ?_, ?_, hacc0⟩
        · have : p.1 - key = (p.1 - (key + 1)) + 1 := by omega
          rw [this, List.getElem?_cons_succ]
          exact hu
        · have : p.2 - n = (p.2 - (n + 1)) + 1 := by omega
          rw [List.filterMap_cons, hacc, this, List.getElem?_cons_succ]
          exact hu0

/-- A key occurs once among the accepted keys when its track is accepted and
not at all when it is rejected. -/
theorem count_acceptedKeys (m : T0RecoAnodeCathodePiercing) (tracks : List Track) :
    ∀ (key k : Nat) (t : Track), tracks[k]? = some t →
      (acceptedKeys m tracks key).count (key + k) =
        if (acceptedOffset m t).isSome then 1 else 0 := by
  have hlow : ∀ (l : List Track) (key j : Nat), j < key → (acceptedKeys m l key).count j = 0 := by
    intro l
    induction l with
    | nil => intro key j _; simp [acceptedKeys_nil]
    | cons u rest ih =>
      intro key j hj
      rw [acceptedKeys_cons]
      have hrest := ih (key + 1) j (by omega)
      split
      · rw [List.count_cons, hrest]
        have : key ≠ j := by omega
        simp [this]
      · exact hrest
  induction tracks with
  | nil => intro key k t h; simp at h
  | cons u rest ih =>
    intro key k t h
    rw [acceptedKeys_cons]
    cases k with
    | zero =>
      simp only [List.getElem?_cons_zero, Option.some.injEq] at h
      subst h
      have hrest := hlow rest (key + 1) key (by omega)
      rw [Nat.add_zero]
      split
      · rw [List.count_cons, hrest]
        simp
      · exact hrest
    | succ k =>
      simp only [List.getElem?_cons_succ] at h
      have hrest := ih (key + 1) k t h
      have hk : key + 1 + k = key + (k + 1) := by omega
      rw [hk] at hrest
      split
      · rw [List.count_cons, hrest]
        have : key ≠ key + (k + 1) := by omega
        simp [this]
      · exact hrest

/-- The products of `produce` on a collection of tracks that all have at least
one point. -/
theorem produce_eq (m : T0RecoAnodeCathodePiercing) (tracks : List Track)
    (hne : ∀ t ∈ tracks, t ≠ []) :
    produce m (some tracks) =
      .ok ⟨tracks.filterMap (acceptedOffset m),
           (acceptedKeys m tracks 0).zip (List.range' 0 (acceptedKeys m tracks 0).length)⟩ := by
  unfold produce
  simp only
  rw [trackLoop_eq m tracks 0 ⟨[], []⟩ (fun t ht => trackT0_ok_of_ne_nil m t (hne t ht))]
  simp

theorem zip_acceptedKeys_append (m : T0RecoAnodeCathodePiercing) (a b : List Track) :
    (acceptedKeys m (a ++ b) 0).zip (List.range' 0 (acceptedKeys m (a ++ b) 0).length) =
      (acceptedKeys m a 0).zip (List.range' 0 (acceptedKeys m a 0).length) ++
        ((acceptedKeys m b 0).zip (List.range' 0 (acceptedKeys m b 0).length)).map
          (fun p => (p.1 + a.length, p.2 + (a.filterMap (acceptedOffset m)).length)) := by
  have hshift := acceptedKeys_shift m b a.length 0
  rw [acceptedKeys_append, List.length_append, Nat.add_comm (acceptedKeys m a 0).length,
    ← List.range'_append_1, List.zip_append (by simp), hshift]
  congr 1
  rw [List.length_map, ← acceptedKeys_length m a 0]
  have hr : List.range' (0 + (acceptedKeys m a 0).length) (acceptedKeys m b 0).length =
      (List.range' 0 (acceptedKeys m b 0).length).map (fun j => j + (acceptedKeys m a 0).length) := by
    have := List.map_add_range' (acceptedKeys m a 0).length 0 (acceptedKeys m b 0).length 1
    rw [Nat.add_comm 0, ← this]
    apply List.map_congr_left
    intro j _
    exact Nat.add_comm _ _
  rw [hr, List.zip_map]
  apply List.map_congr_left
  intro p _
  simp [Prod.map]

/-- The loop body reads a track only through `SortTrackPoints`. -/
theorem trackT0_congr (m : T0RecoAnodeCathodePiercing) (a b : Track)
    (h : SortTrackPoints a = SortTrackPoints b) : trackT0 m a = trackT0 m b := by
  unfold trackT0
  rw [h]

/-! ## Order of the input points -/

/-- C8, as the code has it: for a track with at least one point whose first and
last points have different Y (or whose reversed point sequence is the sequence
itself, as for a single point), the track with its points in reversed order has
the same sorted points, hence the same acceptance, plane and time. -/
theorem reversal_invariance (m : T0RecoAnodeCathodePiercing) (track : Track)
    (hne : track ≠ [])
    (h : (track.head hne).Y ≠ (track.getLast hne).Y ∨ track.reverse = track) :
    (∃ s, SortTrackPoints track = .ok s ∧ SortTrackPoints track.reverse = .ok s) ∧
    trackT0 m track.reverse = trackT0 m track ∧
    produce m (some [track.reverse]) = produce m (some [track]) := by
  have hsort : SortTrackPoints track.reverse = SortTrackPoints track := by
    rcases h with h | h
    · have hr : track.reverse ≠ [] := by simpa using hne
      rw [SortTrackPoints_eq track hne, SortTrackPoints_eq track.reverse hr,
        List.head_reverse, List.getLast_reverse, List.reverse_reverse]
      rcases lt_or_gt_of_ne h with hlt | hgt
      · rw [if_pos hlt, if_neg (not_lt.mpr (le_of_lt hlt))]
      · rw [if_neg (not_lt.mpr (le_of_lt hgt)), if_pos hgt]
    · rw [h]
  refine ⟨?_, trackT0_congr m _ _ hsort, ?_⟩
  · rw [hsort, SortTrackPoints_eq track hne]
    exact ⟨_, rfl, rfl⟩
  · rw [produce_singleton, produce_singleton, trackT0_congr m _ _ hsort]

/-- Scenario 2 is scenario 1 with the points reversed and gives the result of
scenario 1: accepted, time -2400. -/
theorem reversal_invariance_witness :
    scenario1.reverse = scenario2 ∧
    trackT0 scenarioModule scenario2 = trackT0 scenarioModule scenario1 ∧
    trackT0 scenarioModule scenario2 = .ok (some ⟨-2400, 0, 0⟩) := by
  have hrev : scenario1.reverse = scenario2 := by simp [scenario1, scenario2]
  have h := (reversal_invariance scenarioModule scenario1 (by simp [scenario1])
    (Or.inl (by norm_num [scenario1]))).2.1
  rw [hrev] at h
  exact ⟨hrev, h, h.trans scenario1_eval⟩

/-- C8 as stated fails: the two end points of `levelTrack` have the same Y, so
both orders of its points are reversed by `SortTrackPoints`; the track is
accepted as Anode with time -50 and its reverse as Cathode with time -2400. -/
theorem reversal_invariance_counterexample :
    levelTrack ≠ [] ∧
    SortTrackPoints levelTrack = .ok levelTrack.reverse ∧
    SortTrackPoints levelTrack.reverse = .ok levelTrack ∧
    Anode levelTrack.reverse = .ok true ∧ Anode levelTrack = .ok false ∧
    trackT0 scenarioModule levelTrack = .ok (some ⟨-50, 0, 0⟩) ∧
    trackT0 scenarioModule levelTrack.reverse = .ok (some ⟨-2400, 0, 0⟩) ∧
    trackT0 scenarioModule levelTrack.reverse ≠ trackT0 scenarioModule levelTrack := by
  have h1 : trackT0 scenarioModule levelTrack = .ok (some ⟨-50, 0, 0⟩) := by
    simp [trackT0, SortTrackPoints, pushLoop, LocationAtPoint, at_, NumberTrajectoryPoints,
      TrackExitsBottom, TrackEntersSide, Anode, GetCrossingTimeCoord, scenarioModule,
      levelTrack, List.range, List.range.loop]
    norm_num
  have h2 : trackT0 scenarioModule levelTrack.reverse = .ok (some ⟨-2400, 0, 0⟩) := by
    simp [trackT0, SortTrackPoints, pushLoop, LocationAtPoint, at_, NumberTrajectoryPoints,
      TrackExitsBottom, TrackEntersSide, Anode, GetCrossingTimeCoord, scenarioModule,
      levelTrack, List.range, List.range.loop]
    norm_num
  refine ⟨by simp [levelTrack], ?_, ?_, ?_, ?_, h1, h2, ?_⟩
  · rw [SortTrackPoints_eq _ (by simp [levelTrack])]
    norm_num [levelTrack]
  · rw [SortTrackPoints_eq _ (by simp [levelTrack])]
    norm_num [levelTrack]
  · norm_num [Anode, at_, levelTrack]
  · norm_num [Anode, at_, levelTrack]
  · rw [h1, h2]
    intro hc
    injection hc with hc
    injection hc with hc
    injection hc with hc
    norm_num at hc

/-! ## The batch -/

/-- C9: for every list of tracks that all have at least one point `produce`
returns; its offsets are the input list filtered to the accepted tracks and
mapped to their offsets, in input order; the associations list the keys of the
accepted tracks in input order, the i-th association pointing at the i-th
offset, so each accepted track has exactly one association and each rejected
track none, and the offset an association points at is the one the loop body
computes from that track alone; on a concatenation of two lists the offsets
are the concatenation of the offsets, and the associations are those of the
first list followed by those of the second with keys and indices shifted. -/
theorem produce_filters_and_maps (m : T0RecoAnodeCathodePiercing) (tracks : List Track)
    (hne : ∀ t ∈ tracks, t ≠ []) :
    ∃ out, produce m (some tracks) = .ok out ∧
      out.T0_v = tracks.filterMap (acceptedOffset m) ∧
      out.assn_v.map Prod.fst = acceptedKeys m tracks 0 ∧
      out.assn_v.map Prod.snd = List.range out.T0_v.length ∧
      (∀ k t, tracks[k]? = some t →
        (out.assn_v.map Prod.fst).count k = if (acceptedOffset m t).isSome then 1 else 0) ∧
      (∀ k j, (k, j) ∈ out.assn_v → ∃ t t0, tracks[k]? = some t ∧ out.T0_v[j]? = some t0 ∧
        trackT0 m t = .ok (some t0)) ∧
      (∀ a b, tracks = a ++ b → ∃ outA outB, produce m (some a) = .ok outA ∧
        produce m (some b) = .ok outB ∧ out.T0_v = outA.T0_v ++ outB.T0_v ∧
        out.assn_v = outA.assn_v ++
          outB.assn_v.map (fun p => (p.1 + a.length, p.2 + outA.T0_v.length))) := by
  have hlen := acceptedKeys_length m tracks 0
  have hfst : ((acceptedKeys m tracks 0).zip
      (List.range' 0 (acceptedKeys m tracks 0).length)).map Prod.fst = acceptedKeys m tracks 0 :=
    List.map_fst_zip _ _ (by simp)
  refine ⟨_, produce_eq m tracks hne, rfl, hfst, ?_, ?_, ?_, ?_⟩
  · show List.map Prod.snd ((acceptedKeys m tracks 0).zip
      (List.range' 0 (acceptedKeys m tracks 0).length)) = _
    rw [List.map_snd_zip _ _ (by simp), hlen, List.range_eq_range']
  · intro k t hk
    show List.count k (List.map Prod.fst ((acceptedKeys m tracks 0).zip
      (List.range' 0 (acceptedKeys m tracks 0).length))) = _
    rw [hfst]
    have := count_acceptedKeys m tracks 0 k t hk
    rwa [Nat.zero_add] at this
  · intro k j hkj
    obtain ⟨_, _, t, t0, ht, ht0, hacc⟩ := zip_acceptedKeys_sound m tracks 0 0 (k, j) hkj
    exact ⟨t, t0, ht, ht0, (acceptedOffset_eq_some_iff m t t0).mp hacc⟩
  · intro a b hab
    subst hab
    have ha : ∀ t ∈ a, t ≠ [] := fun t ht => hne t (List.mem_append_left b ht)
    have hb : ∀ t ∈ b, t ≠ [] := fun t ht => hne t (List.mem_append_right a ht)
    refine ⟨_, _, produce_eq m a ha, produce_eq m b hb, ?_, ?_⟩
    · exact List.filterMap_append _ _ _
    · exact zip_acceptedKeys_append m a b

/-- A batch of three tracks: scenario 1 (accepted, -2400), scenario 3
(rejected), the level track (accepted, -50). -/
theorem produce_filters_and_maps_witness :
    (∀ t ∈ [scenario1, bottomEdgeTrack, levelTrack], t ≠ []) ∧
    ∃ out, produce scenarioModule (some [scenario1, bottomEdgeTrack, levelTrack]) = .ok out ∧
      out.T0_v = [⟨-2400, 0, 0⟩, ⟨-50, 0, 0⟩] ∧ out.assn_v.map Prod.fst = [0, 2] ∧
      out.assn_v.map Prod.snd = [0, 1] := by
  have hne : ∀ t ∈ [scenario1, bottomEdgeTrack, levelTrack], t ≠ [] := by
    intro t ht
    simp only [List.mem_cons, List.mem_singleton, List.not_mem_nil, or_false] at ht
    rcases ht with h | h | h <;> subst h <;> simp [scenario1, bottomEdgeTrack, levelTrack]
  obtain ⟨out, hout, hT0, hfst, hsnd, _⟩ :=
    produce_filters_and_maps scenarioModule [scenario1, bottomEdgeTrack, levelTrack] hne
  have h1 : acceptedOffset scenarioModule scenario1 = some ⟨-2400, 0, 0⟩ :=
    (acceptedOffset_eq_some_iff _ _ _).mpr scenario1_eval
  have h2 : acceptedOffset scenarioModule bottomEdgeTrack = none := by
    unfold acceptedOffset
    rw [trackT0_eq scenarioModule bottomEdgeTrack bottomEdgeTrack bottomEdgeTrack_sorted
      (by simp [bottomEdgeTrack])]
    norm_num [bottomEdgeTrack, scenarioModule]
  have h3 : acceptedOffset scenarioModule levelTrack = some ⟨-50, 0, 0⟩ := by
    rw [acceptedOffset_eq_some_iff]
    simp [trackT0, SortTrackPoints, pushLoop, LocationAtPoint, at_, NumberTrajectoryPoints,
      TrackExitsBottom, TrackEntersSide, Anode, GetCrossingTimeCoord, scenarioModule,
      levelTrack, List.range, List.range.loop]
    norm_num
  have hT : out.T0_v = [⟨-2400, 0, 0⟩, ⟨-50, 0, 0⟩] := by
    rw [hT0]
    simp [List.filterMap_cons, h1, h2, h3]
  refine ⟨hne, out, hout, hT, ?_, ?_⟩
  · rw [hfst]
    simp [acceptedKeys, List.enumFrom, h1, h2, h3]
  · rw [hsnd, hT]
    rfl


/-- C10, as the code has it: a track that passes both acceptance predicates and
whose sorted first and last points have the same X is not skipped: `Anode`
returns false, the track is taken as Cathode and gets the time
`(top.X - _det_width) / v`; in a batch its offset stands between the offsets
of the tracks before it and after it. -/
theorem equal_x_is_cathode (m : T0RecoAnodeCathodePiercing) (track : Track)
    (s : List TVector3) (hne : s ≠ []) (hs : SortTrackPoints track = .ok s)
    (hb : TrackExitsBottom m s = .ok true) (he : TrackEntersSide m s = .ok true)
    (hx : (s.head hne).X = (s.getLast hne).X) :
    Anode s = .ok false ∧
    trackT0 m track = .ok (some ⟨((s.head hne).X - m._det_width) / m.fDriftVelocity, 0, 0⟩) ∧
    (∀ front back : List Track, (∀ t ∈ front, t ≠ []) → (∀ t ∈ back, t ≠ []) →
      ∃ outF outB out, produce m (some front) = .ok outF ∧ produce m (some back) = .ok outB ∧
        produce m (some (front ++ track :: back)) = .ok out ∧
        out.T0_v = outF.T0_v ++
          (⟨((s.head hne).X - m._det_width) / m.fDriftVelocity, 0, 0⟩ : T0) :: outB.T0_v) := by
  have hnlt : ¬ (s.head hne).X < (s.getLast hne).X := by rw [hx]; exact lt_irrefl _
  have hanode : Anode s = .ok false := by rw [Anode_eq s hne]; simp [hnlt]
  have ht : trackT0 m track =
      .ok (some ⟨((s.head hne).X - m._det_width) / m.fDriftVelocity, 0, 0⟩) := by
    unfold trackT0
    simp only [hs, hb, he, hanode, GetCrossingTimeCoord_eq s hne]
    simp
  refine ⟨hanode, ht, ?_⟩
  intro front back hfront hback
  have htrack : track ≠ [] := by
    intro hnil
    rw [hnil, SortTrackPoints_nil] at hs
    cases hs
  have hall : ∀ t ∈ front ++ track :: back, t ≠ [] := by
    intro t hmem
    rcases List.mem_append.mp hmem with h | h
    · exact hfront t h
    · rcases List.mem_cons.mp h with h | h
      · rw [h]; exact htrack
      · exact hback t h
  refine ⟨_, _, _, produce_eq m front hfront, produce_eq m back hback, produce_eq m _ hall, ?_⟩
  show List.filterMap (acceptedOffset m) (front ++ track :: back) = _
  rw [List.filterMap_append, List.filterMap_cons, (acceptedOffset_eq_some_iff m track _).mpr ht]

theorem verticalTrack_sorted : SortTrackPoints verticalTrack = .ok verticalTrack := by
  rw [SortTrackPoints_eq _ (by simp [verticalTrack])]
  norm_num [verticalTrack]

/-- Scenario 4: top.X = bottom.X = 10; the track is Cathode with the time
-2400. -/
theorem equal_x_is_cathode_witness :
    Anode verticalTrack = .ok false ∧
    trackT0 scenarioModule verticalTrack = .ok (some ⟨-2400, 0, 0⟩) := by
  have h := equal_x_is_cathode scenarioModule verticalTrack verticalTrack
    (by simp [verticalTrack]) verticalTrack_sorted
    (by norm_num [TrackExitsBottom, at_, verticalTrack, scenarioModule])
    (by norm_num [TrackEntersSide, at_, verticalTrack, scenarioModule])
    (by simp [verticalTrack])
  refine ⟨h.1, ?_⟩
  rw [h.2.1]
  norm_num [verticalTrack, scenarioModule]

/-- C10 as stated fails: scenario 4 passes both acceptance predicates and has
top.X = bottom.X, yet the loop body stores an offset for it and `produce`
emits it with its association; the track is not skipped. -/
theorem equal_x_skipped_counterexample :
    SortTrackPoints verticalTrack = .ok verticalTrack ∧
    TrackExitsBottom scenarioModule verticalTrack = .ok true ∧
    TrackEntersSide scenarioModule verticalTrack = .ok true ∧
    verticalTrack.head? = some ⟨10, 90, 500⟩ ∧
    verticalTrack.getLast? = some ⟨10, -105, 500⟩ ∧
    trackT0 scenarioModule verticalTrack ≠ .ok none ∧
    produce scenarioModule (some [verticalTrack]) = .ok ⟨[⟨-2400, 0, 0⟩], [(0, 0)]⟩ := by
  have ht : trackT0 scenarioModule verticalTrack = .ok (some ⟨-2400, 0, 0⟩) := by
    simp [trackT0, SortTrackPoints, pushLoop, LocationAtPoint, at_, NumberTrajectoryPoints,
      TrackExitsBottom, TrackEntersSide, Anode, GetCrossingTimeCoord, scenarioModule,
      verticalTrack, List.range, List.range.loop]
    norm_num
  refine ⟨verticalTrack_sorted, ?_, ?_, rfl, rfl, ?_, ?_⟩
  · norm_num [TrackExitsBottom, at_, verticalTrack, scenarioModule]
  · norm_num [TrackEntersSide, at_, verticalTrack, scenarioModule]
  · rw [ht]
    intro hc
    cases hc
  · rw [produce_singleton, ht]

/-! ## Tracks without points -/

/-- The only fault of the loop body is the out-of-range access. -/
theorem trackT0_error (m : T0RecoAnodeCathodePiercing) (track : Track) (e : Fault)
    (h : trackT0 m track = .error e) : e = Fault.outOfRange := by
  cases track with
  | nil =>
    simp only [trackT0, SortTrackPoints_nil] at h
    injection h with h
    exact h.symm
  | cons p rest =>
    rw [trackT0_ok_of_ne_nil m _ (List.cons_ne_nil p rest)] at h
    cases h

theorem trackT0_nil (m : T0RecoAnodeCathodePiercing) :
    trackT0 m [] = .error Fault.outOfRange := by
  simp only [trackT0, SortTrackPoints_nil]

/-- The loop of `produce` fails on a collection that holds a track without
points, whatever the key and the products so far. -/
theorem trackLoop_nil_mem (m : T0RecoAnodeCathodePiercing) (tracks : List Track) :
    ∀ (key : Nat) (out : Products), [] ∈ tracks →
      trackLoop m tracks key out = .error Fault.outOfRange := by
  induction tracks with
  | nil => intro key out h; simp at h
  | cons t rest ih =>
    intro key out h
    cases t with
    | nil => simp only [trackLoop, trackT0_nil]
    | cons p ps =>
      have hrest : [] ∈ rest := by
        rcases List.mem_cons.mp h with h | h
        · cases h
        · exact h
      have ht := trackT0_ok_of_ne_nil m (p :: ps) (List.cons_ne_nil p ps)
      cases hacc : acceptedOffset m (p :: ps) with
      | none =>
        rw [hacc] at ht
        simp only [trackLoop, ht]
        exact ih _ _ hrest
      | some t0 =>
        rw [hacc] at ht
        simp only [trackLoop, ht]
        exact ih _ _ hrest

/-- C11, as the code has it: a track with zero points is not skipped. On the
empty point sequence `SortTrackPoints` faults at its first access (and
`TrackExitsBottom` and `TrackEntersSide` fault on an empty sorted vector), the
loop body has no handler, and `produce` on every batch that contains such a
track fails with the out-of-range fault: nothing is put into the event, the
offsets of the other tracks included. -/
theorem empty_track_fails_batch (m : T0RecoAnodeCathodePiercing) (tracks : List Track)
    (hmem : [] ∈ tracks) :
    SortTrackPoints [] = .error Fault.outOfRange ∧
    TrackExitsBottom m [] = .error Fault.outOfRange ∧
    TrackEntersSide m [] = .error Fault.outOfRange ∧
    trackT0 m [] = .error Fault.outOfRange ∧
    produce m (some tracks) = .error Fault.outOfRange := by
  refine ⟨SortTrackPoints_nil, ?_, ?_, trackT0_nil m, ?_⟩
  · simp [TrackExitsBottom, at_]
  · simp [TrackEntersSide, at_]
  · unfold produce
    exact trackLoop_nil_mem m tracks 0 ⟨[], []⟩ hmem

/-- A batch of scenario 1, a track without points and the level track. -/
theorem empty_track_fails_batch_witness :
    produce scenarioModule (some [scenario1, [], levelTrack]) = .error Fault.outOfRange :=
  (empty_track_fails_batch scenarioModule [scenario1, [], levelTrack] (by simp)).2.2.2.2

/-- C11 as stated fails: without the empty track the batch gives the offsets
-2400 and -50, with the empty track in the middle `produce` fails and gives no
offsets at all. -/
theorem empty_track_skipped_counterexample :
    (∃ out, produce scenarioModule (some [scenario1, levelTrack]) = .ok out ∧
      out.T0_v = [⟨-2400, 0, 0⟩, ⟨-50, 0, 0⟩]) ∧
    produce scenarioModule (some [scenario1, [], levelTrack]) = .error Fault.outOfRange ∧
    ¬ ∃ out, produce scenarioModule (some [scenario1, [], levelTrack]) = .ok out := by
  have h1 : trackT0 scenarioModule scenario1 = .ok (some ⟨-2400, 0, 0⟩) := scenario1_eval
  have h3 : trackT0 scenarioModule levelTrack = .ok (some ⟨-50, 0, 0⟩) := by
    simp [trackT0, SortTrackPoints, pushLoop, LocationAtPoint, at_, NumberTrajectoryPoints,
      TrackExitsBottom, TrackEntersSide, Anode, GetCrossingTimeCoord, scenarioModule,
      levelTrack, List.range, List.range.loop]
    norm_num
  have hfail : produce scenarioModule (some [scenario1, [], levelTrack]) =
      .error Fault.outOfRange := by
    simp only [produce, trackLoop, h1, trackT0_nil]
  refine ⟨⟨⟨[⟨-2400, 0, 0⟩, ⟨-50, 0, 0⟩], [(0, 0), (1, 1)]⟩, ?_, rfl⟩, hfail, ?_⟩
  · simp only [produce, trackLoop, h1, h3]
    rfl
  · rintro ⟨out, hout⟩
    rw [hfail] at hout
    cases hout

/-! ## The drift velocity -/

/-- The predicates do not read the drift velocity. -/
theorem predicates_withDriftVelocity (m : T0RecoAnodeCathodePiercing) (v : ℚ)
    (s : List TVector3) :
    TrackExitsBottom (withDriftVelocity m v) s = TrackExitsBottom m s ∧
    TrackEntersSide (withDriftVelocity m v) s = TrackEntersSide m s := by
  constructor <;> rfl

/-! ### Binary64 rounding at concrete values -/

theorem log_two_abs_eq (q : ℚ) (e : Int) (h1 : (2 : ℚ) ^ e ≤ |q|)
    (h2 : |q| < (2 : ℚ) ^ (e + 1)) : Int.log 2 |q| = e := by
  have hpos : (0 : ℚ) < |q| := lt_of_lt_of_le (zpow_pos (by norm_num) e) h1
  have hle : e ≤ Int.log 2 |q| :=
    (Int.zpow_le_iff_le_log (by norm_num) hpos).mp (by exact_mod_cast h1)
  have hlt : Int.log 2 |q| < e + 1 :=
    (Int.lt_zpow_iff_log_lt (by norm_num) hpos).mp (by exact_mod_cast h2)
  omega

theorem roundHalfEven_of_floor (q : ℚ) (f : Int) (h1 : (f : ℚ) ≤ q) (h2 : q < f + 1) :
    roundHalfEven q =
      if q - f < 1 / 2 then f else if 1 / 2 < q - f then f + 1
      else if f % 2 = 0 then f else f + 1 := by
  unfold roundHalfEven
  rw [Int.floor_eq_iff.mpr ⟨h1, h2⟩]

/-- The rounding of a value in the normal range, from its binade `e` and the
floor `f` of its scaled significand. -/
theorem roundDouble_of_bounds (q : ℚ) (e f : Int) (he : -1022 ≤ e)
    (h1 : (2 : ℚ) ^ e ≤ |q|) (h2 : |q| < (2 : ℚ) ^ (e + 1))
    (hf1 : (f : ℚ) ≤ q / (2 : ℚ) ^ (e - 52)) (hf2 : q / (2 : ℚ) ^ (e - 52) < f + 1) :
    roundDouble q =
      if |((if q / (2 : ℚ) ^ (e - 52) - f < 1 / 2 then f
            else if 1 / 2 < q / (2 : ℚ) ^ (e - 52) - f then f + 1
            else if f % 2 = 0 then f else f + 1 : Int) : ℚ) * (2 : ℚ) ^ (e - 52)|
          < (2 : ℚ) ^ (1024 : Int)
      then some (((if q / (2 : ℚ) ^ (e - 52) - f < 1 / 2 then f
            else if 1 / 2 < q / (2 : ℚ) ^ (e - 52) - f then f + 1
            else if f % 2 = 0 then f else f + 1 : Int) : ℚ) * (2 : ℚ) ^ (e - 52))
      else none := by
  have hq : q ≠ 0 := by
    intro h0
    rw [h0, abs_zero] at h1
    exact absurd h1 (not_le.mpr (zpow_pos (by norm_num) e))
  unfold roundDouble
  rw [if_neg hq, log_two_abs_eq q e h1 h2]
  have hmax : max (e - 52) (-1074) = e - 52 := max_eq_left (by omega)
  simp only [hmax]
  rw [roundHalfEven_of_floor _ f hf1 hf2]

/-- The double `10 - 250` is -240. -/
theorem fsub_10_250 : fsub 10 250 = some (-240) := by
  unfold fsub
  rw [roundDouble_of_bounds (10 - 250) 7 (-8444249301319680) (by norm_num)
    (by norm_num [abs_of_neg]) (by norm_num [abs_of_neg]) (by norm_num) (by norm_num)]
  norm_num [abs_of_neg]

/-- The double `-240 / 9` is -26.666666666666668. -/
theorem fdiv_240_9 : fdiv (-240) 9 = some (-7505999378950827 / 281474976710656) := by
  unfold fdiv
  rw [if_neg (by norm_num), roundDouble_of_bounds (-240 / 9) 4 (-7505999378950827)
    (by norm_num) (by norm_num [abs_of_neg]) (by norm_num [abs_of_neg]) (by norm_num)
    (by norm_num)]
  norm_num [abs_of_neg]

/-- The double `-240 / 45` is -5.333333333333333. -/
theorem fdiv_240_45 : fdiv (-240) 45 = some (-6004799503160661 / 1125899906842624) := by
  unfold fdiv
  rw [if_neg (by norm_num), roundDouble_of_bounds (-240 / 45) 2 (-6004799503160662)
    (by norm_num) (by norm_num [abs_of_neg]) (by norm_num [abs_of_neg]) (by norm_num)
    (by norm_num)]
  norm_num [abs_of_neg]

/-- The double `-26.666666666666668 / 5` is -5.333333333333334. -/
theorem fdiv_quotient_5 :
    fdiv (-7505999378950827 / 281474976710656) 5 =
      some (-3002399751580331 / 562949953421312) := by
  unfold fdiv
  rw [if_neg (by norm_num),
    roundDouble_of_bounds (-7505999378950827 / 281474976710656 / 5) 2 (-6004799503160662)
      (by norm_num) (by norm_num [abs_of_neg]) (by norm_num [abs_of_neg]) (by norm_num)
      (by norm_num)]
  norm_num [abs_of_neg]

/-- The loop body in binary64 arithmetic on a track whose sorted points are
`s`: the acceptance is that of `trackT0`. -/
theorem trackTimeDouble_eq (m : T0RecoAnodeCathodePiercing) (track : Track)
    (s : List TVector3) (hs : SortTrackPoints track = .ok s) (h : s ≠ []) :
    trackTimeDouble m track =
      .ok (if (s.getLast h).Y < m._BOTTOM ∧
              ((s.head h).Y ≤ m._TOP ∧ m._FRONT ≤ (s.head h).Z ∧ (s.head h).Z ≤ m._BACK) then
            some (trkT m (decide ((s.head h).X < (s.getLast h).X)) (s.head h).X)
           else none) := by
  unfold trackTimeDouble
  simp only [hs, TrackExitsBottom_eq m s h, TrackEntersSide_eq m s h, Anode_eq s h,
    GetCrossingTimeCoord_eq s h]
  by_cases hb : (s.getLast h).Y < m._BOTTOM
  · by_cases he : (s.head h).Y ≤ m._TOP ∧ m._FRONT ≤ (s.head h).Z ∧ (s.head h).Z ≤ m._BACK
    · simp [hb, he]
    · simp [hb, he]
  · simp [hb]

/-- The time in binary64 arithmetic as the quotient of the drift distance. -/
theorem trkT_eq (m : T0RecoAnodeCathodePiercing) (anode : Bool) (trkX : ℚ) :
    trkT m anode trkX =
      (if anode then some trkX else fsub trkX m._det_width).bind
        (fun x => fdiv x m.fDriftVelocity) := by
  unfold trkT
  cases anode with
  | true => simp
  | false =>
    simp only [Bool.false_eq_true, if_false]
    cases fsub trkX m._det_width <;> rfl

/-- C12, as the code has it: for an accepted track, fixed bounds and width, and
velocities `v` and `k * v` with `v` and `k` other than zero, the acceptance
predicates give the same answers under the two velocities (the plane test
`Anode` reads no configuration), the acceptance is that of the exact loop body,
and under both velocities the time is the double quotient of one and the same
drift distance `d` (the X of the first sorted point on Anode, the double
`X - _det_width` on Cathode) by the velocity. The time under `k * v` is the
double nearest to the exact `d / v` divided by `k`; nothing says that it is
the time under `v`, itself a rounded quotient, divided by `k`. -/
theorem time_scaling_rounded (m : T0RecoAnodeCathodePiercing) (k : ℚ) (track : Track)
    (t : Option ℚ) (hv : m.fDriftVelocity ≠ 0) (hk : k ≠ 0)
    (hacc : trackTimeDouble m track = .ok (some t)) :
    (withDriftVelocity m (k * m.fDriftVelocity)).fDriftVelocity ≠ 0 ∧
    (∀ s, TrackExitsBottom (withDriftVelocity m (k * m.fDriftVelocity)) s =
        TrackExitsBottom m s ∧
      TrackEntersSide (withDriftVelocity m (k * m.fDriftVelocity)) s = TrackEntersSide m s) ∧
    (∃ t0, trackT0 m track = .ok (some t0)) ∧
    ∃ s top anode d, SortTrackPoints track = .ok s ∧ s.head? = some top ∧
      Anode s = .ok anode ∧ TrackExitsBottom m s = .ok true ∧
      TrackEntersSide m s = .ok true ∧
      d = (if anode then some top.X else fsub top.X m._det_width) ∧
      t = d.bind (fun x => fdiv x m.fDriftVelocity) ∧
      trackTimeDouble (withDriftVelocity m (k * m.fDriftVelocity)) track =
        .ok (some (d.bind (fun x => fdiv x (k * m.fDriftVelocity)))) ∧
      (∀ x, d = some x →
        fdiv x (k * m.fDriftVelocity) = roundDouble (x / m.fDriftVelocity / k)) := by
  have hkv : k * m.fDriftVelocity ≠ 0 := mul_ne_zero hk hv
  refine ⟨hkv, fun s => predicates_withDriftVelocity m _ s, ?_⟩
  cases hsort : SortTrackPoints track with
  | error e => simp [trackTimeDouble, hsort] at hacc
  | ok s =>
    have hne : s ≠ [] := SortTrackPoints_ne_nil hsort
    rw [trackTimeDouble_eq m track s hsort hne] at hacc
    split at hacc
    · rename_i hcond
      injection hacc with hacc
      injection hacc with hacc
      constructor
      · rw [trackT0_eq m track s hsort hne, if_pos hcond]
        exact ⟨_, rfl⟩
      · refine ⟨s, s.head hne, decide ((s.head hne).X < (s.getLast hne).X), _, rfl,
          List.head?_eq_head hne, Anode_eq s hne, ?_, ?_, rfl, ?_, ?_, ?_⟩
        · rw [TrackExitsBottom_eq m s hne]
          simp [hcond.1]
        · rw [TrackEntersSide_eq m s hne]
          simp [hcond.2]
        · rw [← hacc, trkT_eq]
        · have hcond2 :
              (s.getLast hne).Y < (withDriftVelocity m (k * m.fDriftVelocity))._BOTTOM ∧
              ((s.head hne).Y ≤ (withDriftVelocity m (k * m.fDriftVelocity))._TOP ∧
                (withDriftVelocity m (k * m.fDriftVelocity))._FRONT ≤ (s.head hne).Z ∧
                (s.head hne).Z ≤ (withDriftVelocity m (k * m.fDriftVelocity))._BACK) := hcond
          rw [trackTimeDouble_eq _ track s hsort hne, if_pos hcond2, trkT_eq]
          rfl
        · intro x _
          unfold fdiv
          rw [if_neg hkv, div_mul_eq_div_div_swap]
    · simp at hacc

/-- Scenario 1 in binary64 arithmetic with the velocities 9 and 5 * 9. -/
theorem scenario1_double_9 :
    trackTimeDouble (withDriftVelocity scenarioModule 9) scenario1 =
      .ok (some (some (-7505999378950827 / 281474976710656))) := by
  rw [trackTimeDouble_eq _ scenario1 scenario1 scenario1_sorted (by simp [scenario1])]
  have hcond : ((scenario1.getLast (by simp [scenario1])).Y <
        (withDriftVelocity scenarioModule 9)._BOTTOM ∧
      ((scenario1.head (by simp [scenario1])).Y ≤ (withDriftVelocity scenarioModule 9)._TOP ∧
        (withDriftVelocity scenarioModule 9)._FRONT ≤ (scenario1.head (by simp [scenario1])).Z ∧
        (scenario1.head (by simp [scenario1])).Z ≤ (withDriftVelocity scenarioModule 9)._BACK)) := by
    norm_num [scenario1, scenarioModule, withDriftVelocity]
  have hx : ¬ (scenario1.head (by simp [scenario1])).X <
      (scenario1.getLast (by simp [scenario1])).X := by norm_num [scenario1]
  rw [if_pos hcond, trkT_eq, decide_eq_false hx]
  have hw : (withDriftVelocity scenarioModule 9)._det_width = 250 := rfl
  have hvel : (withDriftVelocity scenarioModule 9).fDriftVelocity = 9 := rfl
  have hX : (scenario1.head (by simp [scenario1])).X = 10 := rfl
  simp only [Bool.false_eq_true, if_false, hw, hvel, hX, fsub_10_250, Option.some_bind,
    fdiv_240_9]

theorem scenario1_double_45 :
    trackTimeDouble (withDriftVelocity scenarioModule (5 * 9)) scenario1 =
      .ok (some (some (-6004799503160661 / 1125899906842624))) := by
  rw [trackTimeDouble_eq _ scenario1 scenario1 scenario1_sorted (by simp [scenario1])]
  have hcond : ((scenario1.getLast (by simp [scenario1])).Y <
        (withDriftVelocity scenarioModule (5 * 9))._BOTTOM ∧
      ((scenario1.head (by simp [scenario1])).Y ≤
          (withDriftVelocity scenarioModule (5 * 9))._TOP ∧
        (withDriftVelocity scenarioModule (5 * 9))._FRONT ≤
          (scenario1.head (by simp [scenario1])).Z ∧
        (scenario1.head (by simp [scenario1])).Z ≤
          (withDriftVelocity scenarioModule (5 * 9))._BACK)) := by
    norm_num [scenario1, scenarioModule, withDriftVelocity]
  have hx : ¬ (scenario1.head (by simp [scenario1])).X <
      (scenario1.getLast (by simp [scenario1])).X := by norm_num [scenario1]
  rw [if_pos hcond, trkT_eq, decide_eq_false hx]
  have hw : (withDriftVelocity scenarioModule (5 * 9))._det_width = 250 := rfl
  have hvel : (withDriftVelocity scenarioModule (5 * 9)).fDriftVelocity = 45 := by
    norm_num [withDriftVelocity]
  have hX : (scenario1.head (by simp [scenario1])).X = 10 := rfl
  simp only [Bool.false_eq_true, if_false, hw, hvel, hX, fsub_10_250, Option.some_bind,
    fdiv_240_45]

/-- Scenario 1 with the velocity 9 and k = 5: the time under 45 is the double
nearest to the exact (-240 / 9) / 5. -/
theorem time_scaling_rounded_witness :
    (withDriftVelocity scenarioModule 9).fDriftVelocity ≠ 0 ∧ (5 : ℚ) ≠ 0 ∧
    trackTimeDouble (withDriftVelocity scenarioModule 9) scenario1 =
      .ok (some (some (-7505999378950827 / 281474976710656))) ∧
    ∃ s top anode d, SortTrackPoints scenario1 = .ok s ∧ s.head? = some top ∧
      Anode s = .ok anode ∧ TrackExitsBottom (withDriftVelocity scenarioModule 9) s = .ok true ∧
      TrackEntersSide (withDriftVelocity scenarioModule 9) s = .ok true ∧
      d = (if anode then some top.X
           else fsub top.X (withDriftVelocity scenarioModule 9)._det_width) ∧
      some (-7505999378950827 / 281474976710656) =
        d.bind (fun x => fdiv x (withDriftVelocity scenarioModule 9).fDriftVelocity) ∧
      trackTimeDouble (withDriftVelocity (withDriftVelocity scenarioModule 9)
          (5 * (withDriftVelocity scenarioModule 9).fDriftVelocity)) scenario1 =
        .ok (some (d.bind
          (fun x => fdiv x (5 * (withDriftVelocity scenarioModule 9).fDriftVelocity)))) ∧
      (∀ x, d = some x →
        fdiv x (5 * (withDriftVelocity scenarioModule 9).fDriftVelocity) =
          roundDouble (x / (withDriftVelocity scenarioModule 9).fDriftVelocity / 5)) :=
  have hv : (withDriftVelocity scenarioModule 9).fDriftVelocity ≠ 0 := by
    norm_num [withDriftVelocity]
  ⟨hv, by norm_num, scenario1_double_9,
    (time_scaling_rounded (withDriftVelocity scenarioModule 9) 5 scenario1 _ hv (by norm_num)
      scenario1_double_9).2.2.2⟩

/-- C12 as stated fails: scenario 1 with the velocities 9 and 5 * 9 = 45 (9, 5
and 45 are doubles). The time under 9 is -26.666666666666668, the time under
45 is -5.333333333333333; the time under 9 divided by 5 is
-5.333333333333334 as a double, and differs from the time under 45 as an
exact quotient too; time times velocity differs under the two velocities. -/
theorem time_scaling_counterexample :
    trackTimeDouble (withDriftVelocity scenarioModule 9) scenario1 =
      .ok (some (some (-7505999378950827 / 281474976710656))) ∧
    trackTimeDouble (withDriftVelocity scenarioModule (5 * 9)) scenario1 =
      .ok (some (some (-6004799503160661 / 1125899906842624))) ∧
    fdiv (-7505999378950827 / 281474976710656) 5 =
      some (-3002399751580331 / 562949953421312) ∧
    (-6004799503160661 / 1125899906842624 : ℚ) ≠ -3002399751580331 / 562949953421312 ∧
    (-6004799503160661 / 1125899906842624 : ℚ) ≠ -7505999378950827 / 281474976710656 / 5 ∧
    (-6004799503160661 / 1125899906842624 : ℚ) * 45 ≠
      -7505999378950827 / 281474976710656 * 9 :=
  ⟨scenario1_double_9, scenario1_double_45, fdiv_quotient_5, by norm_num, by norm_num,
    by norm_num⟩

/-! ## The constructor -/

/-- With the three keys present the constructor returns, and returns the
stored values and the bounds of lines 96-101. -/
theorem construct_eq (name : String) (r v : ℚ) (geom : Geometry) :
    T0RecoAnodeCathodePiercing.construct ⟨some name, some r, some v⟩ geom =
      .ok { fTrackProducer := name, fResolution := r, fDriftVelocity := v,
            _TOP := geom.DetHalfHeight - r, _BOTTOM := - geom.DetHalfHeight + r,
            _FRONT := r, _BACK := geom.DetLength - r,
            _det_width := geom.DetHalfWidth * 2 } := rfl

/-- C13, as the code has it: the constructor checks nothing, so for every
geometry (half-height H, half-width W, length L) and every resolution r it
returns the bounds `_TOP = H - r`, `_BOTTOM = -H + r`, `_FRONT = r`,
`_BACK = L - r`, `_det_width = 2 W`, and of the invariant `_TOP > _BOTTOM`
holds exactly when `r < H`, `_BACK > _FRONT` exactly when `2 r < L`, and
`_det_width > 0` exactly when `W > 0`. -/
theorem constructed_bounds_invariant_iff (name : String) (r v : ℚ) (geom : Geometry) :
    ∃ m, T0RecoAnodeCathodePiercing.construct ⟨some name, some r, some v⟩ geom = .ok m ∧
      m._TOP = geom.DetHalfHeight - r ∧ m._BOTTOM = - geom.DetHalfHeight + r ∧
      m._FRONT = r ∧ m._BACK = geom.DetLength - r ∧ m._det_width = geom.DetHalfWidth * 2 ∧
      (m._TOP > m._BOTTOM ↔ r < geom.DetHalfHeight) ∧
      (m._BACK > m._FRONT ↔ 2 * r < geom.DetLength) ∧
      (m._det_width > 0 ↔ geom.DetHalfWidth > 0) := by
  refine ⟨_, construct_eq name r v geom, rfl, rfl, rfl, rfl, rfl, ?_, ?_, ?_⟩
  · show geom.DetHalfHeight - r > - geom.DetHalfHeight + r ↔ r < geom.DetHalfHeight
    constructor <;> intro h <;> linarith
  · show geom.DetLength - r > r ↔ 2 * r < geom.DetLength
    constructor <;> intro h <;> linarith
  · show geom.DetHalfWidth * 2 > 0 ↔ geom.DetHalfWidth > 0
    constructor <;> intro h <;> linarith

/-- C13 as stated fails: with half-height 105, half-width 125, length 1000 and
the resolution 105 the constructor returns `_TOP = 0 = _BOTTOM`; with the
resolution 600 it returns `_FRONT = 600 > _BACK = 400`. -/
theorem constructed_bounds_counterexample :
    (∃ m, T0RecoAnodeCathodePiercing.construct
        ⟨some "pandoraCosmic", some 105, some (1 / 10)⟩ scenarioGeometry = .ok m ∧
      m._TOP = 0 ∧ m._BOTTOM = 0 ∧ ¬ m._TOP > m._BOTTOM) ∧
    (∃ m, T0RecoAnodeCathodePiercing.construct
        ⟨some "pandoraCosmic", some 600, some (1 / 10)⟩ scenarioGeometry = .ok m ∧
      m._FRONT = 600 ∧ m._BACK = 400 ∧ ¬ m._BACK > m._FRONT) := by
  refine ⟨⟨_, construct_eq _ _ _ _, ?_, ?_, ?_⟩, ⟨_, construct_eq _ _ _ _, ?_, ?_, ?_⟩⟩ <;>
    norm_num [scenarioGeometry]

/-- The scenario geometry and parameters give the scenario module. -/
theorem scenario_construct :
    T0RecoAnodeCathodePiercing.construct scenarioParameters scenarioGeometry =
      .ok scenarioModule := by
  unfold scenarioParameters
  rw [construct_eq]
  norm_num [scenarioModule, scenarioGeometry]

/-- C14, as the code has it: the constructor does not look at the value of the
drift velocity. With the three keys present it returns a module whose drift
velocity is the configured value, zero and negative values included; it fails
exactly when a key is absent, with the exception of the first absent key. -/
theorem constructor_keeps_velocity (p : ParameterSet) (geom : Geometry) :
    (∀ name r v, p = ⟨some name, some r, some v⟩ →
      ∃ m, T0RecoAnodeCathodePiercing.construct p geom = .ok m ∧ m.fDriftVelocity = v) ∧
    (∀ m, T0RecoAnodeCathodePiercing.construct p geom = .ok m →
      p.DriftVelocity = some m.fDriftVelocity) ∧
    ((∃ e, T0RecoAnodeCathodePiercing.construct p geom = .error e) ↔
      (p.TrackProducer = none ∨ p.Resolution = none ∨ p.DriftVelocity = none)) := by
  obtain ⟨name, res, vel⟩ := p
  refine ⟨?_, ?_, ?_⟩
  · intro n r v h
    rw [h]
    exact ⟨_, construct_eq n r v geom, rfl⟩
  · intro m h
    cases name with
    | none => simp [T0RecoAnodeCathodePiercing.construct, getKey] at h
    | some n =>
      cases res with
      | none => simp [T0RecoAnodeCathodePiercing.construct, getKey] at h
      | some r =>
        cases vel with
        | none => simp [T0RecoAnodeCathodePiercing.construct, getKey] at h
        | some v =>
          rw [construct_eq] at h
          injection h with h
          rw [← h]
  · cases name with
    | none => simp [T0RecoAnodeCathodePiercing.construct, getKey]
    | some n =>
      cases res with
      | none => simp [T0RecoAnodeCathodePiercing.construct, getKey]
      | some r =>
        cases vel with
        | none => simp [T0RecoAnodeCathodePiercing.construct, getKey]
        | some v => simp [construct_eq]

/-- C14 as stated fails: with the drift velocity 0, and with the drift velocity
-1/10, the constructor returns a module and the module has that velocity. -/
theorem nonpositive_velocity_counterexample :
    (∃ m, T0RecoAnodeCathodePiercing.construct
        ⟨some "pandoraCosmic", some 5, some 0⟩ scenarioGeometry = .ok m ∧
      m.fDriftVelocity = 0 ∧ ¬ m.fDriftVelocity > 0) ∧
    (∃ m, T0RecoAnodeCathodePiercing.construct
        ⟨some "pandoraCosmic", some 5, some (-1 / 10)⟩ scenarioGeometry = .ok m ∧
      m.fDriftVelocity = -1 / 10 ∧ ¬ m.fDriftVelocity > 0) := by
  refine ⟨⟨_, construct_eq _ _ _ _, rfl, ?_⟩, ⟨_, construct_eq _ _ _ _, rfl, ?_⟩⟩ <;> norm_num

/-! ## The input handle -/

/-- The loop of `produce` never fails with the fault of the handle. -/
theorem trackLoop_error (m : T0RecoAnodeCathodePiercing) (tracks : List Track) :
    ∀ (key : Nat) (out : Products) (e : Fault),
      trackLoop m tracks key out = .error e → e = Fault.outOfRange := by
  induction tracks with
  | nil => intro key out e h; cases h
  | cons t rest ih =>
    intro key out e h
    cases ht : trackT0 m t with
    | error e1 =>
      simp only [trackLoop, ht] at h
      injection h with h
      rw [← h]
      exact trackT0_error m t e1 ht
    | ok r =>
      cases r with
      | none =>
        simp only [trackLoop, ht] at h
        exact ih _ _ _ h
      | some t0 =>
        simp only [trackLoop, ht] at h
        exact ih _ _ _ h

/-- C15: with the track collection absent (handle not valid) `produce` fails
with the exception of line 119 and puts no products into the event; with the
collection present `produce` never fails with that exception, and on the
empty collection it returns the empty products. -/
theorem invalid_handle_fails (m : T0RecoAnodeCathodePiercing) :
    produce m none = .error Fault.invalidHandle ∧
    (¬ ∃ out, produce m none = .ok out) ∧
    produce m (some []) = .ok ⟨[], []⟩ ∧
    (∀ tracks, produce m (some tracks) ≠ .error Fault.invalidHandle) := by
  refine ⟨rfl, ?_, rfl, ?_⟩
  · rintro ⟨out, h⟩
    cases h
  · intro tracks h
    have := trackLoop_error m tracks 0 ⟨[], []⟩ Fault.invalidHandle h
    cases this

/-! ## `SortTrackPoints` applied twice, tracks of one point -/

/-- C17: for a track `t` with at least one point, `SortTrackPoints` applied to
its own output gives that output again when the first and last points of `t`
have different Y, and gives `t` itself when they have the same Y; so it is
idempotent on `t` exactly when the two Y differ or `t` is its own reverse. -/
theorem sort_twice (track : Track) (hne : track ≠ []) :
    ∃ s, SortTrackPoints track = .ok s ∧
      ((track.head hne).Y ≠ (track.getLast hne).Y → SortTrackPointsTwice track = .ok s) ∧
      ((track.head hne).Y = (track.getLast hne).Y → SortTrackPointsTwice track = .ok track) ∧
      (SortTrackPointsTwice track = SortTrackPoints track ↔
        ((track.head hne).Y ≠ (track.getLast hne).Y ∨ track.reverse = track)) := by
  have hr : track.reverse ≠ [] := by simpa using hne
  have hsort := SortTrackPoints_eq track hne
  have hsortr := SortTrackPoints_eq track.reverse hr
  rw [List.head_reverse, List.getLast_reverse, List.reverse_reverse] at hsortr
  have hdiff : (track.head hne).Y ≠ (track.getLast hne).Y →
      SortTrackPointsTwice track = SortTrackPoints track := by
    intro h
    unfold SortTrackPointsTwice
    rcases lt_or_gt_of_ne h with hlt | hgt
    · rw [hsort, if_neg (not_lt.mpr (le_of_lt hlt))]
      simp only
      rw [hsortr, if_pos hlt]
    · rw [hsort, if_pos hgt]
      simp only
      rw [hsort, if_pos hgt]
  have hsame : (track.head hne).Y = (track.getLast hne).Y →
      SortTrackPointsTwice track = .ok track := by
    intro h
    have hn : ¬ (track.head hne).Y > (track.getLast hne).Y := by rw [h]; exact lt_irrefl _
    have hn2 : ¬ (track.getLast hne).Y > (track.head hne).Y := by rw [h]; exact lt_irrefl _
    unfold SortTrackPointsTwice
    rw [hsort, if_neg hn]
    simp only
    rw [hsortr, if_neg hn2]
  refine ⟨_, hsort, ?_, hsame, ?_⟩
  · intro h
    rw [hdiff h, hsort]
  · constructor
    · intro h
      by_cases hy : (track.head hne).Y = (track.getLast hne).Y
      · right
        have hn : ¬ (track.head hne).Y > (track.getLast hne).Y := by rw [hy]; exact lt_irrefl _
        rw [hsame hy, hsort, if_neg hn] at h
        injection h with h
        exact h.symm
      · exact Or.inl hy
    · rintro (h | h)
      · exact hdiff h
      · by_cases hy : (track.head hne).Y = (track.getLast hne).Y
        · have hn : ¬ (track.head hne).Y > (track.getLast hne).Y := by
            rw [hy]; exact lt_irrefl _
          rw [hsame hy, hsort, if_neg hn, h]
        · exact hdiff hy

/-- The level track is reversed twice and comes back; scenario 2 is reversed
once and then kept. -/
theorem sort_twice_witness :
    SortTrackPointsTwice levelTrack = .ok levelTrack ∧
    SortTrackPointsTwice scenario2 = .ok scenario1 ∧
    SortTrackPointsTwice levelTrack ≠ SortTrackPoints levelTrack := by
  obtain ⟨s, hs, hdiff, _, _⟩ := sort_twice scenario2 (by simp [scenario2])
  obtain ⟨r, _, _, hsame, hiff⟩ := sort_twice levelTrack (by simp [levelTrack])
  have hs2 : SortTrackPoints scenario2 = .ok scenario1 := by
    rw [SortTrackPoints_eq _ (by simp [scenario2])]
    norm_num [scenario2, scenario1]
  refine ⟨hsame (by norm_num [levelTrack]), ?_, ?_⟩
  · rw [hdiff (by norm_num [scenario2])]
    rw [hs2] at hs
    injection hs with hs
    rw [hs]
  · intro h
    rcases hiff.mp h with h | h
    · norm_num [levelTrack] at h
    · norm_num [levelTrack] at h

/-- C18: for a track of exactly one point (x, y, z) and bounds with
`_BOTTOM <= _TOP`, the track is accepted if and only if `y < _BOTTOM` and
`_FRONT <= z <= _BACK`; when accepted it is Cathode (`Anode` is false) and its
time is `(x - _det_width) / v`. -/
theorem single_point_track (m : T0RecoAnodeCathodePiercing) (p : TVector3)
    (hbt : m._BOTTOM ≤ m._TOP) :
    SortTrackPoints [p] = .ok [p] ∧ Anode [p] = .ok false ∧
    ((∃ t0, trackT0 m [p] = .ok (some t0)) ↔
      (p.Y < m._BOTTOM ∧ m._FRONT ≤ p.Z ∧ p.Z ≤ m._BACK)) ∧
    (trackT0 m [p] = .ok none ↔ ¬ (p.Y < m._BOTTOM ∧ m._FRONT ≤ p.Z ∧ p.Z ≤ m._BACK)) ∧
    (∀ t0, trackT0 m [p] = .ok (some t0) →
      t0 = ⟨(p.X - m._det_width) / m.fDriftVelocity, 0, 0⟩) := by
  have hsort : SortTrackPoints [p] = .ok [p] := by
    rw [SortTrackPoints_eq [p] (by simp)]
    simp
  have ht := trackT0_eq m [p] [p] hsort (by simp)
  simp only [List.head_cons, List.getLast_singleton, lt_irrefl, if_false] at ht
  refine ⟨hsort, ?_, ?_, ?_, ?_⟩
  · rw [Anode_eq [p] (by simp)]
    simp
  · rw [ht]
    by_cases h : p.Y < m._BOTTOM ∧ m._FRONT ≤ p.Z ∧ p.Z ≤ m._BACK
    · have hy : p.Y ≤ m._TOP := le_trans (le_of_lt h.1) hbt
      simp [h, hy]
    · have : ¬ (p.Y < m._BOTTOM ∧ p.Y ≤ m._TOP ∧ m._FRONT ≤ p.Z ∧ p.Z ≤ m._BACK) :=
        fun c => h ⟨c.1, c.2.2⟩
      rw [if_neg this]
      constructor
      · rintro ⟨t0, ht0⟩
        cases ht0
      · intro c
        exact absurd c h
  · rw [ht]
    by_cases h : p.Y < m._BOTTOM ∧ m._FRONT ≤ p.Z ∧ p.Z ≤ m._BACK
    · have hy : p.Y ≤ m._TOP := le_trans (le_of_lt h.1) hbt
      have : p.Y < m._BOTTOM ∧ p.Y ≤ m._TOP ∧ m._FRONT ≤ p.Z ∧ p.Z ≤ m._BACK :=
        ⟨h.1, hy, h.2⟩
      rw [if_pos this]
      constructor
      · intro c
        cases c
      · intro c
        exact absurd h c
    · have : ¬ (p.Y < m._BOTTOM ∧ p.Y ≤ m._TOP ∧ m._FRONT ≤ p.Z ∧ p.Z ≤ m._BACK) :=
        fun c => h ⟨c.1, c.2.2⟩
      rw [if_neg this]
      exact ⟨fun _ => h, fun _ => rfl⟩
  · intro t0 h0
    rw [ht] at h0
    split at h0
    · injection h0 with h0
      injection h0 with h0
      exact h0.symm
    · cases h0

/-- A one-point track below the bottom bound: Cathode, time
(10 - 250) / (1/10) = -2400; the same point above the bottom bound is
rejected. -/
theorem single_point_track_witness :
    scenarioModule._BOTTOM ≤ scenarioModule._TOP ∧
    trackT0 scenarioModule [⟨10, -105, 500⟩] = .ok (some ⟨-2400, 0, 0⟩) ∧
    trackT0 scenarioModule [⟨10, -95, 500⟩] = .ok none := by
  have hbt : scenarioModule._BOTTOM ≤ scenarioModule._TOP := by norm_num [scenarioModule]
  have h1 := single_point_track scenarioModule ⟨10, -105, 500⟩ hbt
  have h2 := single_point_track scenarioModule ⟨10, -95, 500⟩ hbt
  refine ⟨hbt, ?_, ?_⟩
  · obtain ⟨t0, ht0⟩ := h1.2.2.1.mpr (by norm_num [scenarioModule])
    rw [ht0, h1.2.2.2.2 t0 ht0]
    norm_num [scenarioModule]
  · exact h2.2.2.2.1.mpr (by norm_num [scenarioModule])

end T0Reco

/-! Angle3DFromVtxQweighted: the choice of the planes. -/

namespace Angle3DFromVtxQweighted

theorem extremesStep_pl_max (planeHits : List Int) (st : Extremes) (pl : Nat) :
    (extremesStep planeHits st pl).pl_max =
      if planeHits.getD pl 0 > st.n_max then (pl : Int) else st.pl_max := by
  unfold extremesStep
  generalize planeHits.getD pl 0 = hits
  by_cases h1 : st.n_max < hits <;> by_cases h2 : hits < st.n_min <;> simp [h1, h2]

theorem extremesStep_n_max (planeHits : List Int) (st : Extremes) (pl : Nat) :
    (extremesStep planeHits st pl).n_max =
      if planeHits.getD pl 0 > st.n_max then planeHits.getD pl 0 else st.n_max := by
  unfold extremesStep
  generalize planeHits.getD pl 0 = hits
  by_cases h1 : st.n_max < hits <;> by_cases h2 : hits < st.n_min <;> simp [h1, h2]

theorem extremesStep_pl_min (planeHits : List Int) (st : Extremes) (pl : Nat) :
    (extremesStep planeHits st pl).pl_min =
      if planeHits.getD pl 0 < st.n_min then (pl : Int) else st.pl_min := by
  unfold extremesStep
  generalize planeHits.getD pl 0 = hits
  by_cases h1 : st.n_max < hits <;> by_cases h2 : hits < st.n_min <;> simp [h1, h2]

theorem extremesStep_n_min (planeHits : List Int) (st : Extremes) (pl : Nat) :
    (extremesStep planeHits st pl).n_min =
      if planeHits.getD pl 0 < st.n_min then planeHits.getD pl 0 else st.n_min := by
  unfold extremesStep
  generalize planeHits.getD pl 0 = hits
  by_cases h1 : st.n_max < hits <;> by_cases h2 : hits < st.n_min <;> simp [h1, h2]

/-- The loop over three planes, unfolded. -/
theorem extremes_three (a b c : Int) :
    extremes [a, b, c] =
      extremesStep [a, b, c]
        (extremesStep [a, b, c] (extremesStep [a, b, c] ⟨0, 0, 0, 1000⟩ 0) 1) 2 := by
  rfl

/-- After the loop `pl_max` and `pl_min` are planes 0, 1 or 2. -/
theorem extremes_planes (a b c : Int) :
    ((extremes [a, b, c]).pl_max = 0 ∨ (extremes [a, b, c]).pl_max = 1 ∨
      (extremes [a, b, c]).pl_max = 2) ∧
    ((extremes [a, b, c]).pl_min = 0 ∨ (extremes [a, b, c]).pl_min = 1 ∨
      (extremes [a, b, c]).pl_min = 2) := by
  rw [extremes_three]
  constructor
  · simp only [extremesStep_pl_max, extremesStep_n_max]
    split_ifs <;> simp
  · simp only [extremesStep_pl_min, extremesStep_n_min]
    split_ifs <;> simp


/-- C19: for every triple of per-plane hit counts, either `pl_max = pl_min`
after the loop and the selection raises the `ShowerRecoException`, or the
selection returns: both `std::find` lookups give a position (no `erase` is
applied to the end iterator), `planes[0]` exists and is `pl_mid`, and
`pl_max`, `pl_mid` and `pl_min` are pairwise distinct and together are the
planes 0, 1 and 2. -/
theorem planes_distinct_or_raise (a b c : Int) :
    ((extremes [a, b, c]).pl_max = (extremes [a, b, c]).pl_min ∧
      do_reconstruction_planes [a, b, c] = .error Fault.ShowerRecoException) ∨
    ((extremes [a, b, c]).pl_max ≠ (extremes [a, b, c]).pl_min ∧
      ∃ r i j, do_reconstruction_planes [a, b, c] = .ok r ∧
        r.pl_max = (extremes [a, b, c]).pl_max ∧ r.pl_min = (extremes [a, b, c]).pl_min ∧
        find [0, 1, 2] r.pl_max = some i ∧
        find (List.eraseIdx [0, 1, 2] i) r.pl_min = some j ∧
        (List.eraseIdx (List.eraseIdx ([0, 1, 2] : List Int) i) j)[0]? = some r.pl_mid ∧
        r.pl_max ≠ r.pl_mid ∧ r.pl_mid ≠ r.pl_min ∧ r.pl_max ≠ r.pl_min ∧
        List.Perm [r.pl_max, r.pl_mid, r.pl_min] [0, 1, 2]) := by
  obtain ⟨hmax, hmin⟩ := extremes_planes a b c
  simp only [do_reconstruction_planes]
  generalize (extremes [a, b, c]).pl_max = pmax at hmax ⊢
  generalize (extremes [a, b, c]).pl_min = pmin at hmin ⊢
  rcases hmax with h1 | h1 | h1 <;> rcases hmin with h2 | h2 | h2 <;> subst h1 <;> subst h2
  · exact Or.inl ⟨rfl, rfl⟩
  · exact Or.inr ⟨by decide, _, _, _, rfl, rfl, rfl, rfl, rfl, rfl, by decide, by decide,
      by decide, by decide⟩
  · exact Or.inr ⟨by decide, _, _, _, rfl, rfl, rfl, rfl, rfl, rfl, by decide, by decide,
      by decide, by decide⟩
  · exact Or.inr ⟨by decide, _, _, _, rfl, rfl, rfl, rfl, rfl, rfl, by decide, by decide,
      by decide, by decide⟩
  · exact Or.inl ⟨rfl, rfl⟩
  · exact Or.inr ⟨by decide, _, _, _, rfl, rfl, rfl, rfl, rfl, rfl, by decide, by decide,
      by decide, by decide⟩
  · exact Or.inr ⟨by decide, _, _, _, rfl, rfl, rfl, rfl, rfl, rfl, by decide, by decide,
      by decide, by decide⟩
  · exact Or.inr ⟨by decide, _, _, _, rfl, rfl, rfl, rfl, rfl, rfl, by decide, by decide,
      by decide, by decide⟩
  · exact Or.inl ⟨rfl, rfl⟩


/-! ### The two planes handed to `Get3DaxisN` -/

/-- A selection that returns has the `pl_max` and `pl_min` of the loop, and a
`pl_mid` among the planes 0, 1 and 2. -/
theorem planes_of_ok (a b c : Int) (r : Planes)
    (h : do_reconstruction_planes [a, b, c] = .ok r) :
    r.pl_max = (extremes [a, b, c]).pl_max ∧ r.pl_min = (extremes [a, b, c]).pl_min ∧
    (r.pl_mid = 0 ∨ r.pl_mid = 1 ∨ r.pl_mid = 2) := by
  obtain ⟨hmax, hmin⟩ := extremes_planes a b c
  simp only [do_reconstruction_planes] at h
  generalize (extremes [a, b, c]).pl_max = pmax at hmax h ⊢
  generalize (extremes [a, b, c]).pl_min = pmin at hmin h ⊢
  rcases hmax with h1 | h1 | h1 <;> rcases hmin with h2 | h2 | h2 <;> subst h1 <;> subst h2
  · have hc : (Except.error Fault.ShowerRecoException : Except Fault Planes) = .ok r := h
    cases hc
  · have hc : (Except.ok ⟨0, 2, 1⟩ : Except Fault Planes) = .ok r := h
    injection hc with hc
    subst hc
    simp
  · have hc : (Except.ok ⟨0, 1, 2⟩ : Except Fault Planes) = .ok r := h
    injection hc with hc
    subst hc
    simp
  · have hc : (Except.ok ⟨1, 2, 0⟩ : Except Fault Planes) = .ok r := h
    injection hc with hc
    subst hc
    simp
  · have hc : (Except.error Fault.ShowerRecoException : Except Fault Planes) = .ok r := h
    cases hc
  · have hc : (Except.ok ⟨1, 0, 2⟩ : Except Fault Planes) = .ok r := h
    injection hc with hc
    subst hc
    simp
  · have hc : (Except.ok ⟨2, 1, 0⟩ : Except Fault Planes) = .ok r := h
    injection hc with hc
    subst hc
    simp
  · have hc : (Except.ok ⟨2, 0, 1⟩ : Except Fault Planes) = .ok r := h
    injection hc with hc
    subst hc
    simp
  · have hc : (Except.error Fault.ShowerRecoException : Except Fault Planes) = .ok r := h
    cases hc

/-- With counts that are not negative, `pl_max` is a plane with the greatest
count. -/
theorem extremes_pl_max_greatest (a b c : Int) (ha : 0 ≤ a) (hb : 0 ≤ b) (hc : 0 ≤ c) :
    ((extremes [a, b, c]).pl_max = 0 ∧ b ≤ a ∧ c ≤ a) ∨
    ((extremes [a, b, c]).pl_max = 1 ∧ a ≤ b ∧ c ≤ b) ∨
    ((extremes [a, b, c]).pl_max = 2 ∧ a ≤ c ∧ b ≤ c) := by
  rw [extremes_three]
  simp only [extremesStep_pl_max, extremesStep_n_max, List.getD_cons_zero, List.getD_cons_succ]
  split_ifs <;> simp <;> omega

/-- With a count below 1000, `pl_min` is a plane with the smallest count. -/
theorem extremes_pl_min_smallest (a b c : Int) (hlt : a < 1000 ∨ b < 1000 ∨ c < 1000) :
    ((extremes [a, b, c]).pl_min = 0 ∧ a ≤ b ∧ a ≤ c) ∨
    ((extremes [a, b, c]).pl_min = 1 ∧ b ≤ a ∧ b ≤ c) ∨
    ((extremes [a, b, c]).pl_min = 2 ∧ c ≤ a ∧ c ≤ b) := by
  rw [extremes_three]
  simp only [extremesStep_pl_min, extremesStep_n_min, List.getD_cons_zero, List.getD_cons_succ]
  split_ifs <;> simp <;> omega

/-- C16 at the input (1200, 1500, 1000): no count is below the start value 1000
of `n_min`, so `pl_min` stays plane 0; the selection returns `pl_max = 1`,
`pl_mid = 2`, `pl_min = 0`, and the plane `pl_mid` handed to `Get3DaxisN` has
1000 hits while the plane `pl_min` that is left out has 1200. -/
theorem sentinel_leaves_out_larger_plane :
    do_reconstruction_planes [1200, 1500, 1000] = .ok ⟨1, 2, 0⟩ ∧
    planeHitsAt [1200, 1500, 1000] 2 = 1000 ∧ planeHitsAt [1200, 1500, 1000] 0 = 1200 ∧
    planeHitsAt [1200, 1500, 1000] 2 < planeHitsAt [1200, 1500, 1000] 0 :=
  ⟨rfl, rfl, rfl, by decide⟩

/-- With counts that are not negative and one of them below 1000, a selection
that returns has `pl_max` with the greatest count, `pl_mid` with the second
greatest and `pl_min` with the smallest. -/
theorem largest_planes_below_sentinel (a b c : Int) (ha : 0 ≤ a) (hb : 0 ≤ b) (hc : 0 ≤ c)
    (hlt : a < 1000 ∨ b < 1000 ∨ c < 1000) (r : Planes)
    (h : do_reconstruction_planes [a, b, c] = .ok r) :
    planeHitsAt [a, b, c] r.pl_mid ≤ planeHitsAt [a, b, c] r.pl_max ∧
    planeHitsAt [a, b, c] r.pl_min ≤ planeHitsAt [a, b, c] r.pl_mid := by
  have hmax := extremes_pl_max_greatest a b c ha hb hc
  have hmin := extremes_pl_min_smallest a b c hlt
  obtain ⟨hpmax, hpmin, hmid⟩ := planes_of_ok a b c r h
  rw [← hpmax] at hmax
  rw [← hpmin] at hmin
  rcases hmax with ⟨e1, _, _⟩ | ⟨e1, _, _⟩ | ⟨e1, _, _⟩ <;>
    rcases hmin with ⟨e2, _, _⟩ | ⟨e2, _, _⟩ | ⟨e2, _, _⟩ <;>
    rcases hmid with e3 | e3 | e3 <;>
    rw [e1, e2, e3] <;> simp [planeHitsAt] <;> omega

end Angle3DFromVtxQweighted
